/-
Verification of the COMTRADE decoder (Rust crate `comtrade`).

Shallow embedding of the decode pipeline: the revision-branching configuration
grammar parser (`src/parser/cfg/mod.rs` and its submodules), the timestamp
reconstructor (`src/parser/time.rs`), and the dual-mode data decoder
(`src/parser/dat.rs`).

Modelling conventions:
  * Rust strings (`&str` / `String`) are `List Char` (abbreviated `Str`).
  * Rust `f64` / `f32` values are modelled as exact rationals `ℚ`; the claims
    under scrutiny are about which formula / branch the code computes, not
    about rounding behaviour.
  * Machine integers are `ℕ` / `ℤ` with explicit range checks where the Rust
    `FromStr` impls would reject out-of-range values, and explicit `% 2^32`
    wrapping where `u32` arithmetic can wrap (`sample_number - 1`).
  * Fallible Rust code returning `Result` becomes `Except`.  A Rust panic
    (`unwrap()` on `None`/`Err`, `panic!`, out-of-bounds index, or a panicking
    chrono constructor) is modelled by an outer `Option` layer: `none` means
    the function panics, `some r` means it returns `r`.
-/
import Mathlib

namespace Comtrade

/-- Rust string slices are modelled as lists of characters. -/
abbrev Str := List Char

/-! ### String utilities (Rust `str` methods used by the parser) -/

/-- Whitespace recognised by `str::trim` (restricted to the ASCII whitespace
characters that can occur in COMTRADE text). -/
def isWs (c : Char) : Bool :=
  c = ' ' || c = '\t' || c = '\n' || c = '\r'

/-- Rust `str::trim`: drop whitespace from both ends. -/
def trim (s : Str) : Str :=
  ((s.dropWhile isWs).reverse.dropWhile isWs).reverse

/-- Lower-casing of a single ASCII character (`str::to_lowercase` on the
ASCII inputs the grammar deals with). -/
def lowerChar (c : Char) : Char :=
  if 'A' ≤ c ∧ c ≤ 'Z' then Char.ofNat (c.toNat + 32) else c

/-- Rust `str::to_lowercase` (ASCII fragment). -/
def toLower (s : Str) : Str := s.map lowerChar

/-- ASCII digit test. -/
def isDigitChar (c : Char) : Bool := '0' ≤ c && c ≤ '9'

/-- Numeric value of a digit string (most significant digit first). -/
def digitsToNat (s : Str) : ℕ :=
  s.foldl (fun acc c => acc * 10 + (c.toNat - 48)) 0

/-- Rust unsigned-integer `FromStr`: an optional leading `+`, then a nonempty
run of digits; values at or above `bound` overflow and are rejected. -/
def parseUnsigned (bound : ℕ) (s : Str) : Option ℕ :=
  let digits := match s with
    | '+' :: rest => rest
    | _ => s
  if digits ≠ [] ∧ digits.all isDigitChar then
    let v := digitsToNat digits
    if v < bound then some v else none
  else none

/-- `u32::from_str`. -/
def parseU32 (s : Str) : Option ℕ := parseUnsigned (2 ^ 32) s

/-- `u8::from_str`. -/
def parseU8 (s : Str) : Option ℕ := parseUnsigned (2 ^ 8) s

/-- `usize::from_str` (64-bit). -/
def parseUsize (s : Str) : Option ℕ := parseUnsigned (2 ^ 64) s

/-- `NonZeroUsize::from_str`: a `usize` that additionally must be nonzero. -/
def parseNonZeroUsize (s : Str) : Option ℕ :=
  match parseUsize s with
  | some 0 => none
  | some v => some v
  | none => none

/-- `i32::from_str`: optional sign then digits, within `[-2^31, 2^31)`. -/
def parseI32 (s : Str) : Option ℤ :=
  match s with
  | '-' :: rest =>
    if rest ≠ [] ∧ rest.all isDigitChar then
      let v := digitsToNat rest
      if v ≤ 2 ^ 31 then some (-(v : ℤ)) else none
    else none
  | _ => (parseUnsigned (2 ^ 31) s).map (fun v => (v : ℤ))

/-- Splits `s` at the first `e`/`E`, for float exponent handling. -/
def splitExp (s : Str) : Str × Option Str :=
  let mantissa := s.takeWhile (fun c => c ≠ 'e' ∧ c ≠ 'E')
  match s.drop mantissa.length with
  | [] => (mantissa, none)
  | _ :: expPart => (mantissa, some expPart)

/-- Exponent of a float literal: optional sign then nonempty digits. -/
def parseExponent (s : Str) : Option ℤ :=
  match s with
  | '-' :: rest =>
    if rest ≠ [] ∧ rest.all isDigitChar then some (-(digitsToNat rest : ℤ)) else none
  | '+' :: rest =>
    if rest ≠ [] ∧ rest.all isDigitChar then some (digitsToNat rest : ℤ) else none
  | _ =>
    if s ≠ [] ∧ s.all isDigitChar then some (digitsToNat s : ℤ) else none

/-- Unsigned decimal mantissa `digits [ '.' digits ]` with at least one digit,
as an exact rational. -/
def parseMantissa (s : Str) : Option ℚ :=
  match s.splitOn '.' with
  | [ip] =>
    if ip ≠ [] ∧ ip.all isDigitChar then some (digitsToNat ip : ℚ) else none
  | [ip, fp] =>
    if ip.all isDigitChar ∧ fp.all isDigitChar ∧ (ip ≠ [] ∨ fp ≠ []) then
      some ((digitsToNat ip : ℚ) + (digitsToNat fp : ℚ) / (10 : ℚ) ^ fp.length)
    else none
  | _ => none

/-- `f64::from_str` restricted to finite decimal literals
`[sign] digits [ '.' digits ] [ (e|E) [sign] digits ]`, read exactly
(the special tokens `inf`/`NaN` are outside the fragment the claims use). -/
def parseFloatQ (s : Str) : Option ℚ :=
  let signAndRest : ℚ × Str := match s with
    | '-' :: r => (-1, r)
    | '+' :: r => (1, r)
    | r => (1, r)
  let (mant, expPart) := splitExp signAndRest.2
  match parseMantissa mant with
  | none => none
  | some m =>
    match expPart with
    | none => some (signAndRest.1 * m)
    | some es =>
      match parseExponent es with
      | none => none
      | some e => some (signAndRest.1 * m * (10 : ℚ) ^ e)

/-! ### Data model (`src/lib.rs`, `src/parser/cfg/*.rs`) -/

/-- `FormatRevision` (`src/parser/cfg/revisions.rs`). -/
inductive FormatRevision where
  | Revision1991
  | Revision1999
  | Revision2013
deriving DecidableEq, Repr

/-- `DataFormat` (`src/parser/dat/formats.rs`). -/
inductive DataFormat where
  | Ascii
  | Binary16
  | Binary32
  | Float32
deriving DecidableEq, Repr

/-- `TimePrecision` (`src/parser/cfg/date_time.rs`). -/
inductive TimePrecision where
  | Microseconds
  | Nanoseconds
deriving DecidableEq, Repr

/-- `TimePrecision::to_value` (`date_time.rs` lines 15-20): `1E-6` / `1E-9`. -/
def TimePrecision.to_value : TimePrecision → ℚ
  | .Microseconds => 1 / 1000000
  | .Nanoseconds => 1 / 1000000000

/-- `TimeQuality` (`src/lib.rs`). -/
inductive TimeQuality where
  | ClockLocked
  | ClockUnlocked (exponent : ℤ)
  | ClockFailure
deriving DecidableEq, Repr

/-- `LeapSecondStatus` (`src/lib.rs`). -/
inductive LeapSecondStatus where
  | NoCapability
  | Subtracted
  | Added
  | NotPresent
deriving DecidableEq, Repr

/-- `SamplingRate` (`src/parser/cfg/sample_rates.rs`): `rate_hz: f64`,
`end_sample_number: u32`. -/
structure SamplingRate where
  rate_hz : ℚ
  end_sample_number : ℕ
deriving DecidableEq, Repr

/-- `AnalogScalingMode` (`src/parser/cfg/analog_channels.rs`). -/
inductive AnalogScalingMode where
  | Primary
  | Secondary
deriving DecidableEq, Repr

/-- `AnalogConfig` (`src/parser/cfg/analog_channels.rs`). -/
structure AnalogConfig where
  index : ℕ
  name : Str
  phase : Str
  circuit_component_being_monitored : Str
  units : Str
  min_value : ℚ
  max_value : ℚ
  multiplier : ℚ
  offset_adder : ℚ
  skew : ℚ
  primary_factor : ℚ
  secondary_factor : ℚ
  scaling_mode : AnalogScalingMode
deriving DecidableEq, Repr

/-- `StatusConfig` (`src/parser/cfg/status_channel.rs`). -/
structure StatusConfig where
  index : ℕ
  name : Str
  phase : Str
  circuit_component_being_monitored : Str
  normal_status_value : ℕ
deriving DecidableEq, Repr

/-- `AnalogChannel` (`src/parser/mod.rs`): config plus accumulated data. -/
structure AnalogChannel where
  config : AnalogConfig
  data : List ℚ
deriving DecidableEq, Repr

/-- `StatusChannel` (`src/parser/mod.rs`). -/
structure StatusChannel where
  config : StatusConfig
  data : List ℕ
deriving DecidableEq, Repr

/-! ### Error types (`src/error.rs`, `src/parser/mod.rs`) -/

/-- `ParseError` (`src/parser/mod.rs`) carries only a formatted message in the
source; here each distinct `format!` call site becomes one constructor with
the data interpolated into the message. -/
inductive ParseError where
  /-- "timestamp is critical but not present in sample number {n}" -/
  | timestampCriticalMissing (sample_number : ℕ)
  /-- "invalid time offset on line: {s}" -/
  | invalidTimeOffset (line : Str)
  /-- "invalid hour offset in time offset: ..." -/
  | invalidHourOffset (piece : Str)
  /-- "invalid minute offset in time offset: ..." -/
  | invalidMinuteOffset (piece : Str)
  /-- "Row {i} has incorrect number of columns; expected {e} but got {g}." -/
  | wrongColumnCount (row expected got : ℕ)
  /-- "[DAT] Invalid sample number {s} on line {i+1}" -/
  | invalidSampleNumber (row : ℕ) (token : Str)
  /-- "[DAT] Invalid timestamp {s} on line {i}." -/
  | invalidTimestamp (row : ℕ) (token : Str)
  /-- "[DAT] Invalid float value {s} in analog channel {c} on line {i+1}." -/
  | invalidAnalogValue (row channel : ℕ) (token : Str)
  /-- "[DAT] Invalid status value {s} in status channel {c} on line {i+1}" -/
  | invalidStatusValue (row channel : ℕ) (token : Str)
  /-- "Data format not specified." -/
  | dataFormatNotSpecified
deriving DecidableEq, Repr

/-- `ComtradeError` (`src/error.rs`). -/
inductive ComtradeError where
  | MissingLineElements (context : Str)
  | InvalidValue (value : Str) (type_ : Str) (field : Str)
  | UnexpectedEndOfCfgFile
  | BadRevisionFormat (value : Str)
  | CantFindTimestampPrecision
  | InvalidNormalStatus (index : ℕ)
  | ParserError (e : ParseError)
deriving DecidableEq, Repr

/-- Decidable equality for `Except`, so closed runs of the embedded parsers
can be checked by `decide`. -/
instance {ε α : Type} [DecidableEq ε] [DecidableEq α] :
    DecidableEq (Except ε α) := fun a b =>
  match a, b with
  | .ok x, .ok y =>
    if h : x = y then .isTrue (by rw [h]) else .isFalse (by intro hc; cases hc; exact h rfl)
  | .error x, .error y =>
    if h : x = y then .isTrue (by rw [h]) else .isFalse (by intro hc; cases hc; exact h rfl)
  | .ok _, .error _ => .isFalse (by intro hc; cases hc)
  | .error _, .ok _ => .isFalse (by intro hc; cases hc)

/-- `ComtradeError::add_context` (`src/error.rs`). -/
def ComtradeError.add_context (e : ComtradeError) (msg : Str) : ComtradeError :=
  match e with
  | .MissingLineElements _ => .MissingLineElements msg
  | .InvalidValue value type_ _ => .InvalidValue value type_ msg
  | _ => e

/-! ### Timestamp reconstructor (`src/parser/time.rs`) -/

/-- The fields of `ComtradeParser` that `real_time` and
`sampling_rate_for_sample` consult (`src/parser/mod.rs`):
`is_timestamp_critical`, `builder.sampling_rates` (set by `parse_cfg` before
any data decoding), `ts_base_unit`, and
`builder.timestamp_multiplication_factor` (an `Option<f64>` on the builder). -/
structure TimeState where
  is_timestamp_critical : Bool
  sampling_rates : List SamplingRate
  ts_base_unit : ℚ
  timestamp_multiplication_factor : Option ℚ
deriving DecidableEq, Repr

/-- `sampling_rate_for_sample` (`time.rs` lines 28-39): first segment whose
`end_sample_number` is at least the sample number, falling back to `1.0`. -/
def sampling_rate_for_sample (st : TimeState) (sample_number : ℕ) : ℚ :=
  match st.sampling_rates.find? (fun r => sample_number ≤ r.end_sample_number) with
  | some rate => rate.rate_hz
  | none => 1

/-- Wrapping `u32` decrement: `sample_number - 1` where `sample_number: u32`
(release-mode two's-complement wrap at 0). -/
def u32_sub_one (n : ℕ) : ℕ := (n + (2 ^ 32 - 1)) % 2 ^ 32

/-- `real_time` (`time.rs` lines 10-26): the condition
`!is_timestamp_critical || timestamp.is_none()` selects the rate-derived
branch; otherwise the stored timestamp is scaled by the base unit and the
multiplication factor (`unwrap_or(1.0)`). -/
def real_time (st : TimeState) (sample_number : ℕ) (timestamp : Option ℕ) :
    Except ParseError ℚ :=
  if !st.is_timestamp_critical || timestamp.isNone then
    .ok ((u32_sub_one sample_number : ℚ) / sampling_rate_for_sample st sample_number)
  else
    match timestamp with
    | some ts_value =>
      .ok ((ts_value : ℚ) * st.ts_base_unit *
        st.timestamp_multiplication_factor.getD 1)
    | none => .error (.timestampCriticalMissing sample_number)

/-- `chrono::FixedOffset::east` panics unless `-86400 < secs < 86400`;
`none` models the panic, the offset itself is seconds east of UTC. -/
def fixed_offset_east (secs : ℤ) : Option ℤ :=
  if -86400 < secs ∧ secs < 86400 then some secs else none

/-- `parse_time_offset` (`time.rs` lines 52-96).  Outer `Option` models the
panic inside `FixedOffset::east`; the `Except` layer is the function's own
`ParseResult`; the innermost `Option ℤ` is the "not applicable" encoding. -/
def parse_time_offset (offset_str : Str) : Option (Except ParseError (Option ℤ)) :=
  let time_value := trim offset_str
  if toLower time_value = ['x'] then
    some (.ok none)
  else
    match parseI32 time_value with
    | some hours =>
      (fixed_offset_east (hours * 3600)).map (fun o => .ok (some o))
    | none =>
      match time_value.splitOn 'h' with
      | [hp, mp] =>
        match parseI32 (trim hp) with
        | none => some (.error (.invalidHourOffset (trim hp)))
        | some hours =>
          match parseI32 (trim mp) with
          | none => some (.error (.invalidMinuteOffset (trim mp)))
          | some minutes =>
            let total_offset :=
              if hours > 0 then hours * 3600 + minutes * 60
              else hours * 3600 - minutes * 60
            (fixed_offset_east total_offset).map (fun o => .ok (some o))
      | _ => some (.error (.invalidTimeOffset time_value))

/-! ### Configuration line reading (`src/parser/cfg/mod.rs` lines 203-242) -/

/-- `split_cfg_line`: split on the comma separator, trimming every token. -/
def split_cfg_line (line : Str) : List Str :=
  (line.splitOn ',').map trim

/-- `ConfigLine::read_next`: next token (trimmed), or `MissingLineElements`. -/
def read_next (toks : List Str) : Except ComtradeError (Str × List Str) :=
  match toks with
  | [] => .error (.MissingLineElements [])
  | t :: rest => .ok (trim t, rest)

/-- `ConfigLine::read_value::<T>` with the `FromStr` impl for `T` passed in as
`p` and `type_name::<T>` as `typeName`. -/
def read_value (p : Str → Option α) (typeName : Str) (toks : List Str) :
    Except ComtradeError (α × List Str) :=
  match read_next toks with
  | .error e => .error e
  | .ok (s, rest) =>
    match p s with
    | some v => .ok (v, rest)
    | none => .error (.InvalidValue s typeName [])

/-- `ConfigLine::read_value_with_trailing_char::<T>`: the last character of
the raw token is stripped (saturating) before parsing. -/
def read_value_with_trailing_char (p : Str → Option α) (typeName : Str)
    (toks : List Str) : Except ComtradeError (α × List Str) :=
  match read_next toks with
  | .error e => .error e
  | .ok (s, rest) =>
    match p s.dropLast with
    | some v => .ok (v, rest)
    | none => .error (.InvalidValue s typeName [])

/-- `ChannelSizes::from_line` (`cfg/mod.rs` lines 249-263): total (unused),
analog count with trailing char, status count with trailing char. -/
def channel_sizes_from_line (toks : List Str) : Except ComtradeError (ℕ × ℕ) :=
  match read_value parseUsize ['u','s','i','z','e'] toks with
  | .error e => .error (e.add_context ("Channel Sizes: Total".toList))
  | .ok (_total, rest) =>
    match read_value_with_trailing_char parseUsize ['u','s','i','z','e'] rest with
    | .error e => .error (e.add_context ("Channel Sizes: Analog".toList))
    | .ok (analog, rest2) =>
      match read_value_with_trailing_char parseUsize ['u','s','i','z','e'] rest2 with
      | .error e => .error (e.add_context ("Channel Sizes: Status".toList))
      | .ok (status, _) => .ok (analog, status)

/-- `type_name::<NonZeroUsize>()` tag used in `InvalidValue` errors. -/
def nzUsizeType : Str := ("NonZeroUsize").toList

/-- `type_name::<String>()` tag. -/
def strType : Str := ("String").toList

/-- `type_name::<f64>()` tag. -/
def f64Type : Str := ("f64").toList

/-- `type_name::<u8>()` tag. -/
def u8Type : Str := ("u8").toList

/-- `type_name::<u32>()` tag. -/
def u32Type : Str := ("u32").toList

/-- `type_name::<i32>()` tag. -/
def i32Type : Str := ("i32").toList

/-- `type_name::<AnalogScalingMode>()` tag. -/
def modeType : Str := ("AnalogScalingMode").toList

/-- `type_name::<TimeQuality>()` tag. -/
def tqType : Str := ("TimeQuality").toList

/-- `type_name::<LeapSecondStatus>()` tag. -/
def lsType : Str := ("LeapSecondStatus").toList

/-- `AnalogScalingMode::from_str` (`src/parser/mod.rs`). -/
def parse_scaling_mode (s : Str) : Option AnalogScalingMode :=
  match toLower s with
  | ['p'] => some .Primary
  | ['s'] => some .Secondary
  | _ => none

/-- `AnalogConfig::from_cfg_row` (`analog_channels.rs` lines 33-63): thirteen
positional reads in source order. -/
def analog_config_from_cfg_row (toks : List Str) : Except ComtradeError AnalogConfig := do
  let (index, toks) ← read_value parseNonZeroUsize nzUsizeType toks
  let (name, toks) ← read_value (fun s => some s) strType toks
  let (phase, toks) ← read_value (fun s => some s) strType toks
  let (comp, toks) ← read_value (fun s => some s) strType toks
  let (units, toks) ← read_value (fun s => some s) strType toks
  let (multiplier, toks) ← read_value parseFloatQ f64Type toks
  let (offset_adder, toks) ← read_value parseFloatQ f64Type toks
  let (skew, toks) ← read_value parseFloatQ f64Type toks
  let (min_value, toks) ← read_value parseFloatQ f64Type toks
  let (max_value, toks) ← read_value parseFloatQ f64Type toks
  let (primary_factor, toks) ← read_value parseFloatQ f64Type toks
  let (secondary_factor, toks) ← read_value parseFloatQ f64Type toks
  let (scaling_mode, _) ← read_value parse_scaling_mode modeType toks
  return { index, name, phase, circuit_component_being_monitored := comp, units,
           min_value, max_value, multiplier, offset_adder, skew,
           primary_factor, secondary_factor, scaling_mode }

/-- `StatusConfig::from_config_row` (`status_channel.rs` lines 15-35): five
positional reads, then the normal-status value must be the literal 0 or 1. -/
def status_config_from_config_row (toks : List Str) : Except ComtradeError StatusConfig := do
  let (status_index, toks) ← read_value parseNonZeroUsize nzUsizeType toks
  let (name, toks) ← read_value (fun s => some s) strType toks
  let (phase, toks) ← read_value (fun s => some s) strType toks
  let (comp, toks) ← read_value (fun s => some s) strType toks
  let (normal_status_value, _) ← read_value parseU8 u8Type toks
  if normal_status_value ≠ 0 ∧ normal_status_value ≠ 1 then
    throw (.InvalidNormalStatus status_index)
  else
    return { index := status_index, name, phase,
             circuit_component_being_monitored := comp, normal_status_value }

/-- `SamplingRate::from_config_line` (`sample_rates.rs` lines 11-21). -/
def sampling_rate_from_config_line (toks : List Str) : Except ComtradeError SamplingRate := do
  let (rate_hz, toks) ← read_value parseFloatQ f64Type toks
  let (end_sample_number, _) ← read_value parseU32 u32Type toks
  return { rate_hz, end_sample_number }

/-- The analog-row loop of `parse_cfg` (`cfg/mod.rs` lines 56-60): read `n`
lines, parse each with `AnalogConfig::from_cfg_row`, return the configs and
the unconsumed lines. -/
def parse_analog_rows (n : ℕ) (lines : List Str) :
    Except ComtradeError (List AnalogConfig × List Str) :=
  match n with
  | 0 => .ok ([], lines)
  | n + 1 =>
    match lines with
    | [] => .error .UnexpectedEndOfCfgFile
    | l :: rest =>
      match analog_config_from_cfg_row (split_cfg_line l) with
      | .error e => .error e
      | .ok c =>
        match parse_analog_rows n rest with
        | .error e => .error e
        | .ok (cs, rem) => .ok (c :: cs, rem)

/-- The status-row loop of `parse_cfg` (`cfg/mod.rs` lines 62-66). -/
def parse_status_rows (n : ℕ) (lines : List Str) :
    Except ComtradeError (List StatusConfig × List Str) :=
  match n with
  | 0 => .ok ([], lines)
  | n + 1 =>
    match lines with
    | [] => .error .UnexpectedEndOfCfgFile
    | l :: rest =>
      match status_config_from_config_row (split_cfg_line l) with
      | .error e => .error e
      | .ok c =>
        match parse_status_rows n rest with
        | .error e => .error e
        | .ok (cs, rem) => .ok (c :: cs, rem)

/-- The sampling-rate-row loop of `parse_cfg` (`cfg/mod.rs` lines 96-101). -/
def parse_rate_rows (n : ℕ) (lines : List Str) :
    Except ComtradeError (List SamplingRate × List Str) :=
  match n with
  | 0 => .ok ([], lines)
  | n + 1 =>
    match lines with
    | [] => .error .UnexpectedEndOfCfgFile
    | l :: rest =>
      match sampling_rate_from_config_line (split_cfg_line l) with
      | .error e => .error e
      | .ok r =>
        match parse_rate_rows n rest with
        | .error e => .error e
        | .ok (rs, rem) => .ok (r :: rs, rem)

/-- Outcome of the sampling-rate stanza: the computed `total_num_samples`,
the `is_timestamp_critical` flag, the parsed rate table, the remaining
configuration lines. -/
structure SamplingSection where
  total_num_samples : ℕ
  is_timestamp_critical : Bool
  sampling_rates : List SamplingRate
  remaining : List Str
deriving DecidableEq, Repr

/-- The sampling-rate stanza of `parse_cfg` (`cfg/mod.rs` lines 90-117):
read the count (inferred `i32` in the source), read that many rate rows, set
`total_num_samples` to `rates.iter().map(end).max().unwrap()` (`none` models
the panic of `unwrap` on an empty table), consume the extra
total-sample-count line when the count is 0, and set timestamp-critical mode
if the count is 0. -/
def parse_sampling_section (lines : List Str) :
    Option (Except ComtradeError SamplingSection) :=
  match lines with
  | [] => some (.error .UnexpectedEndOfCfgFile)
  | countLine :: rest =>
    match read_value parseI32 i32Type (split_cfg_line countLine) with
    | .error e => some (.error e)
    | .ok (num_sampling_rates, _) =>
      match parse_rate_rows num_sampling_rates.toNat rest with
      | .error e => some (.error e)
      | .ok (sampling_rates, rem) =>
        match (sampling_rates.map (·.end_sample_number)).max? with
        | none => none
        | some total =>
          if num_sampling_rates = 0 then
            match rem with
            | [] => some (.error .UnexpectedEndOfCfgFile)
            | _ :: rem2 =>
              some (.ok ⟨total, true, sampling_rates, rem2⟩)
          else
            some (.ok ⟨total, false, sampling_rates, rem⟩)

/-! ### Timestamp precision (`src/parser/cfg/date_time.rs`) -/

/-- `ts_base_unit` (`date_time.rs` lines 71-87): `rsplit('.')` yields first
the section after the last dot; if there is no second section (no dot at
all) the precision cannot be determined; otherwise at most six fractional
digits means microseconds, seven or more means nanoseconds. -/
def ts_base_unit (datetime_stamp : Str) : Except ComtradeError TimePrecision :=
  if ¬ datetime_stamp.contains '.' then
    .error .CantFindTimestampPrecision
  else if ((datetime_stamp.reverse.takeWhile (fun c => c ≠ '.')).reverse).length ≤ 6 then
    .ok .Microseconds
  else
    .ok .Nanoseconds

/-- The combination rule of `parse_cfg` (`cfg/mod.rs` lines 124, 136): the
record's base time unit is `start.to_value()` then `min`-ed with
`trigger.to_value()` — the finer of the two precisions. -/
def effective_base_unit (start trigger : TimePrecision) : ℚ :=
  min start.to_value trigger.to_value

/-! ### Revision-gated configuration tail (`src/parser/cfg/mod.rs` 147-199) -/

/-- The revision-gated optional fields accumulated on the `ComtradeBuilder`
(derive_builder stores each field as an `Option`; `none` = never populated). -/
structure CfgBuilder where
  timestamp_multiplication_factor : Option ℚ
  time_offset : Option (Option ℤ)
  local_offset : Option (Option ℤ)
  time_quality : Option (Option TimeQuality)
  leap_second_status : Option (Option LeapSecondStatus)
deriving DecidableEq, Repr

/-- The builder state in which `parse_cfg` reaches line 147: nothing before
that point touches any of the five revision-gated fields. -/
def CfgBuilder.init : CfgBuilder := ⟨none, none, none, none, none⟩

/-- `Default for Comtrade` (`src/lib.rs` line 111) fixes the multiplication
factor default at `1.0`. -/
def default_timestamp_multiplication_factor : ℚ := 1

/-- `TimeQuality::from_str` (`src/parser/mod.rs`): lower-cased, trimmed codes. -/
def parse_time_quality (s : Str) : Option TimeQuality :=
  match trim (toLower s) with
  | ['f'] => some .ClockFailure
  | ['b'] => some (.ClockUnlocked 1)
  | ['a'] => some (.ClockUnlocked 0)
  | ['9'] => some (.ClockUnlocked (-1))
  | ['8'] => some (.ClockUnlocked (-2))
  | ['7'] => some (.ClockUnlocked (-3))
  | ['6'] => some (.ClockUnlocked (-4))
  | ['5'] => some (.ClockUnlocked (-5))
  | ['4'] => some (.ClockUnlocked (-6))
  | ['3'] => some (.ClockUnlocked (-7))
  | ['2'] => some (.ClockUnlocked (-8))
  | ['1'] => some (.ClockUnlocked (-9))
  | ['0'] => some .ClockLocked
  | _ => none

/-- `LeapSecondStatus::from_str` (`src/parser/mod.rs`): trimmed digit codes. -/
def parse_leap_second_status (s : Str) : Option LeapSecondStatus :=
  match trim s with
  | ['3'] => some .NoCapability
  | ['2'] => some .Subtracted
  | ['1'] => some .Added
  | ['0'] => some .NotPresent
  | _ => none

/-- The tail of `parse_cfg` from line 147 on.  Revision1991 returns at once;
Revision1999 additionally reads the multiplication factor and explicitly
defaults the four 2013-only fields to unset; Revision2013 then reads the two
time offsets and the quality / leap-second line.  `none` models the panic
reachable through `FixedOffset::east`. -/
def parse_cfg_tail (format_revision : FormatRevision) (lines : List Str)
    (b : CfgBuilder) : Option (Except ComtradeError CfgBuilder) :=
  if format_revision = .Revision1991 then some (.ok b) else
  match lines with
  | [] => some (.error .UnexpectedEndOfCfgFile)
  | l :: rest =>
    match read_value parseFloatQ f64Type (split_cfg_line l) with
    | .error e => some (.error e)
    | .ok (time_mult, _) =>
      let b := { b with timestamp_multiplication_factor := some time_mult,
                        time_offset := some none,
                        local_offset := some none,
                        time_quality := some none,
                        leap_second_status := some none }
      if format_revision = .Revision1999 then some (.ok b) else
      match rest with
      | [] => some (.error .UnexpectedEndOfCfgFile)
      | l2 :: rest2 =>
        match read_value (fun s => some s) strType (split_cfg_line l2) with
        | .error e => some (.error e)
        | .ok (tok1, toks2) =>
          match parse_time_offset tok1 with
          | none => none
          | some (.error e) => some (.error (.ParserError e))
          | some (.ok time_offset) =>
            match read_value (fun s => some s) strType toks2 with
            | .error e => some (.error e)
            | .ok (tok2, _) =>
              match parse_time_offset tok2 with
              | none => none
              | some (.error e) => some (.error (.ParserError e))
              | some (.ok local_offset) =>
                let b := { b with time_offset := some time_offset,
                                  local_offset := some local_offset }
                match rest2 with
                | [] => some (.error .UnexpectedEndOfCfgFile)
                | l3 :: _ =>
                  match read_value parse_time_quality tqType (split_cfg_line l3) with
                  | .error e => some (.error e)
                  | .ok (tmq_code, toks4) =>
                    match read_value parse_leap_second_status lsType toks4 with
                    | .error e => some (.error e)
                    | .ok (leap, _) =>
                      some (.ok { b with time_quality := some (some tmq_code),
                                         leap_second_status := some (some leap) })

/-! ### Binary byte readers (`byteorder` little-endian reads on a cursor) -/

/-- Little-endian value of a byte list (first byte least significant). -/
def le_value (bs : List ℕ) : ℕ :=
  bs.foldr (fun b acc => b + 256 * acc) 0

/-- Read `k` bytes from the front of the buffer; `none` is the `Err` the
source immediately `unwrap`s (truncated input). -/
def read_bytes (k : ℕ) (bytes : List ℕ) : Option (List ℕ × List ℕ) :=
  if k ≤ bytes.length then some (bytes.take k, bytes.drop k) else none

/-- `read_u16::<LittleEndian>`. -/
def read_u16_le (bytes : List ℕ) : Option (ℕ × List ℕ) :=
  (read_bytes 2 bytes).map (fun p => (le_value p.1, p.2))

/-- `read_u32::<LittleEndian>`. -/
def read_u32_le (bytes : List ℕ) : Option (ℕ × List ℕ) :=
  (read_bytes 4 bytes).map (fun p => (le_value p.1, p.2))

/-- Two's-complement reinterpretation of a `w`-bit unsigned value. -/
def to_signed (w : ℕ) (v : ℕ) : ℤ :=
  if v < 2 ^ (w - 1) then (v : ℤ) else (v : ℤ) - 2 ^ w

/-- `read_i16::<LittleEndian>`. -/
def read_i16_le (bytes : List ℕ) : Option (ℤ × List ℕ) :=
  (read_bytes 2 bytes).map (fun p => (to_signed 16 (le_value p.1), p.2))

/-- `read_i32::<LittleEndian>`. -/
def read_i32_le (bytes : List ℕ) : Option (ℤ × List ℕ) :=
  (read_bytes 4 bytes).map (fun p => (to_signed 32 (le_value p.1), p.2))

/-- Exact rational value of an IEEE-754 binary32 bit pattern.  Finite values
are represented exactly; the non-finite patterns (exponent field 255) have
no rational value and are mapped to 0 — no claim under scrutiny touches
them. -/
def f32_to_rat (bits : ℕ) : ℚ :=
  let sign : ℚ := if bits / 2 ^ 31 % 2 = 1 then -1 else 1
  let expf : ℕ := bits / 2 ^ 23 % 2 ^ 8
  let frac : ℕ := bits % 2 ^ 23
  if expf = 0 then
    sign * (frac : ℚ) * (2 : ℚ) ^ (-(149 : ℤ))
  else if expf = 255 then
    0
  else
    sign * ((2 ^ 23 + frac : ℕ) : ℚ) * (2 : ℚ) ^ ((expf : ℤ) - 150)

/-- `read_f32::<LittleEndian>`. -/
def read_f32_le (bytes : List ℕ) : Option (ℚ × List ℕ) :=
  (read_bytes 4 bytes).map (fun p => (f32_to_rat (le_value p.1), p.2))

/-! ### Binary data decoder (`src/parser/dat.rs` lines 101-184) -/

/-- `TIMESTAMP_MISSING` (`src/parser/mod.rs`). -/
def TIMESTAMP_MISSING : ℕ := 0xffffffff

/-- `(num_status_channels as f32 / 16.0).ceil() as u8` (`dat.rs` line 104):
exact ceiling division for all counts below `2^24`, saturated at 255 by the
float-to-`u8` cast. -/
def num_status_groups (num_status_channels : ℕ) : ℕ :=
  min ((num_status_channels + 15) / 16) 255

/-- The bit-unpacking of the status words for one sample (`dat.rs` lines
157-171): each 16-bit group is expanded least-significant-bit first
(`(group & (1 << i)) >> i`), the groups are concatenated, and the result is
truncated to the declared status-channel count. -/
def unpack_status_words (words : List ℕ) (num_status_channels : ℕ) : List ℕ :=
  ((words.map (fun group => (List.range 16).map (fun bit_idx => group / 2 ^ bit_idx % 2))).flatten).take
    num_status_channels

/-- Read `k` consecutive 16-bit little-endian words. -/
def read_u16_words (k : ℕ) (bytes : List ℕ) : Option (List ℕ × List ℕ) :=
  match k with
  | 0 => some ([], bytes)
  | k + 1 =>
    match read_u16_le bytes with
    | none => none
    | some (w, rest) =>
      (read_u16_words k rest).map (fun p => (w :: p.1, p.2))

/-- The per-channel analog read of the binary loop (`dat.rs` lines 130-151):
for each of the first `k` analog channels, read one raw value in the width
selected by the data format (non-binary or unset formats hit the `panic!`
arm, and an exhausted channel list is the out-of-bounds indexing panic),
then scale it by `raw * multiplier + offset_adder`. -/
def read_raw_analog (fmt : Option DataFormat) (bytes : List ℕ) :
    Option (ℚ × List ℕ) :=
  match fmt with
  | some .Binary16 => (read_i16_le bytes).map (fun p => ((p.1 : ℚ), p.2))
  | some .Binary32 => (read_i32_le bytes).map (fun p => ((p.1 : ℚ), p.2))
  | some .Float32 => read_f32_le bytes
  | _ => none

/-- The per-channel analog read-and-scale loop of `dat.rs` lines 130-151. -/
def read_scaled_analog (fmt : Option DataFormat) (chs : List AnalogChannel)
    (k : ℕ) (bytes : List ℕ) : Option (List ℚ × List ℕ) :=
  match k with
  | 0 => some ([], bytes)
  | k + 1 =>
    match chs with
    | [] => none
    | ch :: rest =>
      match read_raw_analog fmt bytes with
      | none => none
      | some (raw, bytes2) =>
        match read_scaled_analog fmt rest k bytes2 with
        | none => none
        | some (vs, bytes3) =>
          some ((raw * ch.config.multiplier + ch.config.offset_adder) :: vs, bytes3)

/-- `push_datum` applied positionally (`for (i, v) in values { channels[i].push_datum(v) }`):
`none` is the indexing panic when there are more values than channels;
channels beyond the value list are untouched. -/
def push_analog_data (chs : List AnalogChannel) (vs : List ℚ) :
    Option (List AnalogChannel) :=
  match vs, chs with
  | [], rest => some rest
  | v :: vs, ch :: rest =>
    (push_analog_data rest vs).map (fun out => { ch with data := ch.data ++ [v] } :: out)
  | _ :: _, [] => none

/-- `push_datum` for status channels. -/
def push_status_data (chs : List StatusChannel) (vs : List ℕ) :
    Option (List StatusChannel) :=
  match vs, chs with
  | [], rest => some rest
  | v :: vs, ch :: rest =>
    (push_status_data rest vs).map (fun out => { ch with data := ch.data ++ [v] } :: out)
  | _ :: _, [] => none

/-- The parser fields consulted by `parse_dat` (`src/parser/mod.rs`). -/
structure DatParserState where
  num_analog_channels : ℕ
  num_status_channels : ℕ
  total_num_samples : ℕ
  data_format : Option DataFormat
  analog_channels : List AnalogChannel
  status_channels : List StatusChannel
  time : TimeState
deriving DecidableEq, Repr

/-- Result of a data decode: the per-sample numbers and reconstructed times
handed to the builder, and the channels with their accumulated data. -/
structure DatResult where
  sample_numbers : List ℕ
  timestamps : List ℚ
  analog_channels : List AnalogChannel
  status_channels : List StatusChannel
deriving DecidableEq, Repr

/-- The record loop of `parse_dat_binary` (`dat.rs` lines 111-178), indexed
by the number of records still to read (`total_num_samples - i`).  For each
record: a 4-byte sample index, a 4-byte raw timestamp (`0xFFFFFFFF` =
absent), `num_analog_channels` analog values in the format's width,
`num_status_groups` status words.  Every cursor read is `unwrap`ed in the
source, so a short buffer is a panic (`none`). -/
def parse_dat_binary_go (fmt : Option DataFormat) (nA nS : ℕ) (time : TimeState)
    (analog : List AnalogChannel) (status : List StatusChannel)
    (sample_numbers : List ℕ) (timestamps : List ℚ)
    (remaining : ℕ) (bytes : List ℕ) : Option (Except ParseError DatResult) :=
  match remaining with
  | 0 => some (.ok ⟨sample_numbers, timestamps, analog, status⟩)
  | r + 1 =>
    match read_u32_le bytes with
    | none => none
    | some (sample_number, b1) =>
      match read_u32_le b1 with
      | none => none
      | some (timestamp, b2) =>
        let ts := if timestamp = TIMESTAMP_MISSING then none else some timestamp
        match real_time time sample_number ts with
        | .error e => some (.error e)
        | .ok t =>
          match read_scaled_analog fmt analog nA b2 with
          | none => none
          | some (analog_values, b3) =>
            match push_analog_data analog analog_values with
            | none => none
            | some analog2 =>
              match read_u16_words (num_status_groups nS) b3 with
              | none => none
              | some (words, b4) =>
                match push_status_data status (unpack_status_words words nS) with
                | none => none
                | some status2 =>
                  parse_dat_binary_go fmt nA nS time analog2 status2
                    (sample_numbers ++ [sample_number]) (timestamps ++ [t]) r b4

/-- `parse_dat_binary` (`dat.rs` lines 101-184). -/
def parse_dat_binary (st : DatParserState) (bytes : List ℕ) :
    Option (Except ParseError DatResult) :=
  parse_dat_binary_go st.data_format st.num_analog_channels st.num_status_channels
    st.time st.analog_channels st.status_channels [] [] st.total_num_samples bytes

/-! ### ASCII data decoder (`src/parser/dat.rs` lines 15-99) -/

/-- The analog-column loop of one ASCII row (`dat.rs` lines 62-78): trim the
token, parse it as `f64`, scale by the channel's multiplier and offset, and
append.  `none` is the indexing panic when the channel list is shorter than
`num_analog_channels`. -/
def parse_ascii_analog_cols (row : ℕ) (chs : List AnalogChannel) (toks : List Str)
    (channel_idx : ℕ) : Option (Except ParseError (List AnalogChannel)) :=
  match toks with
  | [] => some (.ok chs)
  | t :: ts =>
    match chs with
    | [] => none
    | ch :: rest =>
      match parseFloatQ (trim t) with
      | none => some (.error (.invalidAnalogValue row (channel_idx + 1) (trim t)))
      | some raw =>
        let value := raw * ch.config.multiplier + ch.config.offset_adder
        match parse_ascii_analog_cols row rest ts (channel_idx + 1) with
        | none => none
        | some (.error e) => some (.error e)
        | some (.ok rest2) =>
          some (.ok ({ ch with data := ch.data ++ [value] } :: rest2))

/-- The status-column loop of one ASCII row (`dat.rs` lines 80-92): trim the
token, parse it as `u8`, and append it unchanged. -/
def parse_ascii_status_cols (row : ℕ) (chs : List StatusChannel) (toks : List Str)
    (channel_idx : ℕ) : Option (Except ParseError (List StatusChannel)) :=
  match toks with
  | [] => some (.ok chs)
  | t :: ts =>
    match chs with
    | [] => none
    | ch :: rest =>
      match parseU8 (trim t) with
      | none => some (.error (.invalidStatusValue row (channel_idx + 1) (trim t)))
      | some value =>
        match parse_ascii_status_cols row rest ts (channel_idx + 1) with
        | none => none
        | some (.error e) => some (.error e)
        | some (.ok rest2) =>
          some (.ok ({ ch with data := ch.data ++ [value] } :: rest2))

/-- One non-blank ASCII data row (`dat.rs` lines 28-92): split on commas,
check the column count (`2 + num_analog + num_status`), parse the sample
number, the optional timestamp (empty token = absent), reconstruct the time,
then decode the analog and status columns. -/
def parse_ascii_row (nA nS : ℕ) (time : TimeState) (row : ℕ) (line : Str)
    (analog : List AnalogChannel) (status : List StatusChannel) :
    Option (Except ParseError (ℕ × ℚ × List AnalogChannel × List StatusChannel)) :=
  let data_values := line.splitOn ','
  let expected_num_cols := nS + nA + 2
  if data_values.length ≠ expected_num_cols then
    some (.error (.wrongColumnCount row expected_num_cols data_values.length))
  else
    match parseU32 (trim (data_values.getD 0 [])) with
    | none => some (.error (.invalidSampleNumber row (trim (data_values.getD 0 []))))
    | some sample_number =>
      let tsTok := trim (data_values.getD 1 [])
      let tsParsed : Except ParseError (Option ℕ) :=
        if tsTok = [] then .ok none
        else
          match parseU32 tsTok with
          | none => .error (.invalidTimestamp row tsTok)
          | some v => .ok (some v)
      match tsParsed with
      | .error e => some (.error e)
      | .ok ts =>
        match real_time time sample_number ts with
        | .error e => some (.error e)
        | .ok t =>
          match parse_ascii_analog_cols row analog ((data_values.drop 2).take nA) 0 with
          | none => none
          | some (.error e) => some (.error e)
          | some (.ok analog2) =>
            match parse_ascii_status_cols row status (data_values.drop (2 + nA)) 0 with
            | none => none
            | some (.error e) => some (.error e)
            | some (.ok status2) =>
              some (.ok (sample_number, t, analog2, status2))

/-- The row loop of `parse_dat_ascii` over the non-blank lines. -/
def parse_dat_ascii_go (nA nS : ℕ) (time : TimeState)
    (analog : List AnalogChannel) (status : List StatusChannel)
    (sample_numbers : List ℕ) (timestamps : List ℚ) (row : ℕ)
    (lines : List Str) : Option (Except ParseError DatResult) :=
  match lines with
  | [] => some (.ok ⟨sample_numbers, timestamps, analog, status⟩)
  | l :: rest =>
    match parse_ascii_row nA nS time row l analog status with
    | none => none
    | some (.error e) => some (.error e)
    | some (.ok (sample_number, t, analog2, status2)) =>
      parse_dat_ascii_go nA nS time analog2 status2
        (sample_numbers ++ [sample_number]) (timestamps ++ [t]) (row + 1) rest

/-- `parse_dat_ascii` (`dat.rs` lines 15-99): the contents are split on
newlines, blank lines are dropped, and the rows are decoded in order. -/
def parse_dat_ascii (st : DatParserState) (contents : Str) :
    Option (Except ParseError DatResult) :=
  let lines := (contents.splitOn '\n').filter (fun l => ¬ trim l = [])
  parse_dat_ascii_go st.num_analog_channels st.num_status_channels st.time
    st.analog_channels st.status_channels [] [] 0 lines

/-! ### Specification-side packing (for the status round-trip claim) -/

/-- Value of one status group: the first element of the chunk is the least
significant bit (`Σ chunk[i] * 2^i`). -/
def status_word (chunk : List ℕ) : ℕ :=
  chunk.foldr (fun b acc => b + 2 * acc) 0

/-- Modelled from the spec: group-wise 16-bit little-endian, LSB-first
packing of a sequence of status-channel values, the final word zero-padded
("Status words are unpacked bit-by-bit, least-significant-bit first, with
bit `i` of word `g` mapping to status channel `16*g + i`"). -/
def pack_status_bits (bits : List ℕ) : List ℕ :=
  if h : bits = [] then []
  else status_word (bits.take 16) :: pack_status_bits (bits.drop 16)
termination_by bits.length
decreasing_by
  simp only [List.length_drop]
  have : bits.length ≠ 0 := fun hl => h (List.eq_nil_of_length_eq_zero hl)
  omega

/-! ### Concrete fixtures used by witnesses and counterexamples -/

/-- A minimal analog channel configuration (multiplier 1, offset 0). -/
def fixtureAnalogConfig : AnalogConfig :=
  ⟨1, [], [], [], [], -10, 10, 1, 0, 0, 1, 1, .Primary⟩

/-- An analog configuration with a nontrivial scaling. -/
def fixtureScaledAnalogConfig : AnalogConfig :=
  ⟨1, [], [], [], [], -10, 10, 3, 5, 0, 1, 1, .Primary⟩

/-- A minimal status channel configuration. -/
def fixtureStatusConfig : StatusConfig := ⟨1, [], [], [], 0⟩

/-- A binary-mode parser state declaring one analog and one status channel
and one total sample, with a one-segment rate table. -/
def fixtureBinaryState (fmt : DataFormat) : DatParserState :=
  { num_analog_channels := 1
    num_status_channels := 1
    total_num_samples := 1
    data_format := some fmt
    analog_channels := [⟨fixtureAnalogConfig, []⟩]
    status_channels := [⟨fixtureStatusConfig, []⟩]
    time := ⟨false, [⟨1, 1⟩], 1 / 1000000, none⟩ }

/-- ASCII parser state declaring 1 analog channel, 0 status channels, and a
rate table whose maximum end-sample index (hence `total_num_samples`) is 5. -/
def fixtureAsciiState : DatParserState :=
  { num_analog_channels := 1
    num_status_channels := 0
    total_num_samples := 5
    data_format := some .Ascii
    analog_channels := [⟨fixtureAnalogConfig, []⟩]
    status_channels := []
    time := ⟨false, [⟨1000, 5⟩], 1 / 1000000, none⟩ }

/-- ASCII parser state declaring 0 analog and 1 status channel. -/
def fixtureStatusAsciiState : DatParserState :=
  { num_analog_channels := 0
    num_status_channels := 1
    total_num_samples := 1
    data_format := some .Ascii
    analog_channels := []
    status_channels := [⟨fixtureStatusConfig, []⟩]
    time := ⟨false, [⟨1000, 1⟩], 1 / 1000000, none⟩ }

/-! ### C1 — timestamp-critical mode with an absent stored timestamp -/

/-- C1 (code bug): in timestamp-critical mode (`is_timestamp_critical = true`,
empty rate table), `real_time` does NOT return the fatal
"timestamp is critical but not present" error when the stored timestamp is
absent: the branch condition `!is_timestamp_critical || timestamp.is_none()`
also fires on an absent timestamp, so the call falls into the rate-derived
branch and returns `Ok((n−1)/1.0)` through the 1.0 Hz fallback — the error
arm of the `match` is unreachable.  When the timestamp IS present the claimed
formula `raw * base_time_unit * multiplication_factor` does hold.  Evaluated
here at sample number 2 with base unit 1e-6 and multiplication factor 2. -/
theorem real_time_critical_absent_returns_ok_not_error :
    real_time ⟨true, [], 1 / 1000000, some 2⟩ 2 none = .ok 1 ∧
    real_time ⟨true, [], 1 / 1000000, some 2⟩ 2 (some 500) =
      .ok ((500 : ℚ) * (1 / 1000000) * 2) := by
  constructor
  · with_unfolding_all rfl
  · with_unfolding_all rfl

/-! ### C2 — truncated binary input panics instead of erroring -/

/-- C2 (code bug): every cursor read in `parse_dat_binary` is `unwrap()`ed,
so a data buffer shorter than `total_num_samples` complete fixed-width
records terminates with a panic (modelled `none`) instead of returning a
structured decode error, for each of the three binary encodings.  Shown on
an empty buffer with one declared sample, and on a buffer truncated after
the 8-byte sample-number/timestamp prefix. -/
theorem parse_dat_binary_truncated_panics :
    parse_dat_binary (fixtureBinaryState .Binary16) [] = none ∧
    parse_dat_binary (fixtureBinaryState .Binary32) [] = none ∧
    parse_dat_binary (fixtureBinaryState .Float32) [] = none ∧
    parse_dat_binary (fixtureBinaryState .Binary16)
      [1, 0, 0, 0, 255, 255, 255, 255] = none := by
  refine ⟨by decide, by decide, by decide, by decide⟩

/-! ### C3 — the sampling-rate stanza and the empty-table panic -/

/-- C3 (code bug): with a non-zero sampling-rate count the stanza computes
`total_num_samples` as the maximum end-sample index of the parsed segments
(8 here, from segments ending at 5 and 8), but with a count of 0 the
expression `sampling_rates.iter().map(end).max().unwrap()` panics on the
empty table (modelled `none`) before the extra total-sample-count line is
consumed and before timestamp-critical mode is set — the count-0 handling
on lines 109-116 of `cfg/mod.rs` is unreachable. -/
theorem parse_sampling_section_zero_count_panics :
    parse_sampling_section
        [("2").toList, ("1000,5").toList, ("2000,8").toList, ("rest").toList] =
      some (.ok ⟨8, false, [⟨1000, 5⟩, ⟨2000, 8⟩], [("rest").toList]⟩) ∧
    parse_sampling_section [("0").toList, ("100").toList] = none := by
  refine ⟨by with_unfolding_all rfl, by decide⟩

/-! ### C7 — the compound time-offset token with zero hours -/

/-- C7 counterexample: the claim says a compound token with hours = 0 maps to
`hours*3600 + minutes*60` (so `0h30` ↦ +1800), but the source tests
`hours > 0`, so zero hours takes the subtraction branch: `0h30` parses to
−1800 seconds. -/
theorem parse_time_offset_zero_hours_subtracts :
    parse_time_offset (("0h30").toList) = some (.ok (some (-1800))) ∧
    ((0 : ℤ) * 3600 + 30 * 60 = 1800) ∧ (-1800 : ℤ) ≠ (1800 : ℤ) := by
  refine ⟨by decide, by decide, by decide⟩

/-! ### Shared helper lemmas -/

/-- For in-range `u32` sample numbers at least 1, the wrapping decrement is
the ordinary decrement. -/
theorem u32_sub_one_eq (n : ℕ) (h1 : 1 ≤ n) (h2 : n < 2 ^ 32) :
    u32_sub_one n = n - 1 := by
  unfold u32_sub_one
  have hsplit : n + (2 ^ 32 - 1) = (n - 1) + 1 * 2 ^ 32 := by omega
  rw [hsplit, Nat.add_mul_mod_self_right, Nat.mod_eq_of_lt (by omega)]

/-! ### C8 — the rate-derived branch of `real_time` -/

/-- C8: whenever the rate-derived branch applies (timestamp-critical mode off,
or no stored timestamp), `real_time` returns `(n − 1) / rate_for(n)`; the
rate is the Hz value of the first sampling-rate segment in order whose
end-sample index is at least `n`, and falls back to 1.0 Hz when no segment
matches.  Sample numbers are the 1-based `u32` values read from the data. -/
theorem real_time_rate_branch (st : TimeState) (n : ℕ) (ts : Option ℕ)
    (hbranch : st.is_timestamp_critical = false ∨ ts = none)
    (h1 : 1 ≤ n) (h2 : n < 2 ^ 32) :
    real_time st n ts = .ok (((n : ℚ) - 1) / sampling_rate_for_sample st n) ∧
    (∀ l₁ r l₂, st.sampling_rates = l₁ ++ r :: l₂ →
      (∀ r₀ ∈ l₁, ¬ n ≤ r₀.end_sample_number) → n ≤ r.end_sample_number →
      sampling_rate_for_sample st n = r.rate_hz) ∧
    ((∀ r₀ ∈ st.sampling_rates, ¬ n ≤ r₀.end_sample_number) →
      sampling_rate_for_sample st n = 1) := by
  refine ⟨?_, ?_, ?_⟩
  · have hcond : (!st.is_timestamp_critical || ts.isNone) = true := by
      rcases hbranch with h | h
      · simp [h]
      · simp [h]
    have hcast : ((u32_sub_one n : ℕ) : ℚ) = (n : ℚ) - 1 := by
      rw [u32_sub_one_eq n h1 h2]
      push_cast [h1]
      ring
    simp [real_time, hcond, hcast]
  · intro l₁ r l₂ hsplit hnone hr
    unfold sampling_rate_for_sample
    rw [hsplit, List.find?_append]
    have h₁ : List.find? (fun r₀ => n ≤ r₀.end_sample_number) l₁ = none := by
      exact List.find?_eq_none.mpr (by intro x hx; simpa using hnone x hx)
    rw [h₁]
    simp [List.find?_cons, hr]
  · intro hnone
    unfold sampling_rate_for_sample
    rw [List.find?_eq_none.mpr (by intro x hx; simpa using hnone x hx)]

/-- Witness for C8: in a two-segment table (1000 Hz up to sample 5, 2000 Hz
up to sample 8), sample 7 with no stored timestamp gets
`(7 − 1) / 2000` seconds from the second segment. -/
theorem real_time_rate_branch_witness :
    real_time ⟨false, [⟨1000, 5⟩, ⟨2000, 8⟩], 1 / 1000000, none⟩ 7 none =
        .ok (((7 : ℚ) - 1) /
          sampling_rate_for_sample ⟨false, [⟨1000, 5⟩, ⟨2000, 8⟩], 1 / 1000000, none⟩ 7) ∧
      sampling_rate_for_sample ⟨false, [⟨1000, 5⟩, ⟨2000, 8⟩], 1 / 1000000, none⟩ 7 = 2000 := by
  have h := real_time_rate_branch ⟨false, [⟨1000, 5⟩, ⟨2000, 8⟩], 1 / 1000000, none⟩ 7 none
    (Or.inl rfl) (by decide) (by decide)
  exact ⟨h.1, h.2.1 [⟨1000, 5⟩] ⟨2000, 8⟩ [] rfl (by decide) (by decide)⟩

/-! ### C9 — fractional-digit counts and the base time unit -/

/-- Helper: `takeWhile` runs through a prefix on which the predicate holds
and stops at the first failing element. -/
theorem takeWhile_append_stop (p : Char → Bool) (l : Str) (x : Char) (r : Str)
    (hl : ∀ c ∈ l, p c = true) (hx : p x = false) :
    (l ++ x :: r).takeWhile p = l := by
  induction l with
  | nil => simp [List.takeWhile, hx]
  | cons c cs ih =>
    have hc := hl c (by simp)
    simp only [List.cons_append, List.takeWhile_cons, hc, if_true]
    simp_all

/-- C9: for a time token, no fractional dot at all is the fatal
"cannot determine precision" error; a fractional part of at most six digits
after the last dot gives microsecond precision, seven or more gives
nanosecond precision; and the effective base unit of the record is the
`min` of the two lines' unit values — nanoseconds (1e-9) exactly when either
line is nanosecond-precision, microseconds (1e-6) otherwise. -/
theorem ts_base_unit_precision (s pre frac : Str) (p1 p2 : TimePrecision)
    (hfrac : ∀ c ∈ frac, c ≠ '.') :
    (('.') ∉ s → ts_base_unit s = .error .CantFindTimestampPrecision) ∧
    (s = pre ++ '.' :: frac → frac.length ≤ 6 → ts_base_unit s = .ok .Microseconds) ∧
    (s = pre ++ '.' :: frac → 7 ≤ frac.length → ts_base_unit s = .ok .Nanoseconds) ∧
    (effective_base_unit p1 p2 =
      if p1 = .Nanoseconds ∨ p2 = .Nanoseconds then
        TimePrecision.Nanoseconds.to_value
      else TimePrecision.Microseconds.to_value) := by
  have hsection : s = pre ++ '.' :: frac →
      (s.reverse.takeWhile (fun c => decide (c ≠ '.'))).reverse = frac := by
    intro hs
    subst hs
    rw [List.reverse_append, List.reverse_cons, List.append_assoc, List.singleton_append]
    rw [takeWhile_append_stop _ frac.reverse '.' _
      (by intro c hc; simpa using hfrac c (List.mem_reverse.mp hc)) (by simp)]
    exact List.reverse_reverse frac
  refine ⟨?_, ?_, ?_, ?_⟩
  · intro hmem
    unfold ts_base_unit
    rw [if_pos]
    intro hc
    exact hmem (List.elem_iff.mp hc)
  · intro hs hlen
    unfold ts_base_unit
    have hcontains : s.contains '.' = true := by
      rw [hs]
      exact List.elem_iff.mpr (by simp)
    rw [if_neg (by simp [hs]), hsection hs, if_pos hlen]
  · intro hs hlen
    unfold ts_base_unit
    have hcontains : s.contains '.' = true := by
      rw [hs]
      exact List.elem_iff.mpr (by simp)
    rw [if_neg (by simp [hs]), hsection hs, if_neg (by omega)]
  · cases p1 <;> cases p2 <;> simp [effective_base_unit, TimePrecision.to_value] <;> norm_num

/-- Witness for C9: `12:31:59.123456` (six fractional digits) is microsecond
precision, `12:31:59.1234567` (seven digits) is nanosecond precision, a
token with no dot is the fatal error, and a microsecond line combined with a
nanosecond line gives the nanosecond base unit. -/
theorem ts_base_unit_precision_witness :
    ts_base_unit (("12:31:59.123456").toList) = .ok .Microseconds ∧
    ts_base_unit (("12:31:59.1234567").toList) = .ok .Nanoseconds ∧
    ts_base_unit (("12:31:59").toList) = .error .CantFindTimestampPrecision ∧
    effective_base_unit .Microseconds .Nanoseconds = TimePrecision.Nanoseconds.to_value := by
  refine ⟨?_, ?_, ?_, ?_⟩
  · exact (ts_base_unit_precision (("12:31:59.123456").toList) (("12:31:59").toList)
      (("123456").toList) .Microseconds .Microseconds (by decide)).2.1 (by decide) (by decide)
  · exact (ts_base_unit_precision (("12:31:59.1234567").toList) (("12:31:59").toList)
      (("1234567").toList) .Microseconds .Microseconds (by decide)).2.2.1 (by decide) (by decide)
  · exact (ts_base_unit_precision (("12:31:59").toList) [] [] .Microseconds .Microseconds
      (by decide)).1 (by decide)
  · exact ((ts_base_unit_precision [] [] [] .Microseconds .Nanoseconds
      (by decide)).2.2.2).trans (by norm_num)

/-! ### C10 — ASCII status tokens are any `u8`, cfg normal-status is 0/1 -/

/-- C10: the text-mode decoder accepts any status-column token that parses
as an 8-bit unsigned integer and appends it to the status channel unchanged
(first conjunct, for an arbitrary parsed value `v`); the 0-or-1 restriction
is enforced only on the configuration file's normal-status value, where the
value 2 raises `InvalidNormalStatus` naming the channel index (second
conjunct); and a full text-mode row whose status column is `2` decodes
successfully with the value 2 stored (third conjunct). -/
theorem ascii_status_any_u8_accepted
    (row k : ℕ) (ch : StatusChannel) (chs : List StatusChannel)
    (tok : Str) (toks : List Str) (v : ℕ) (rest2 : List StatusChannel)
    (hp : parseU8 (trim tok) = some v)
    (hrest : parse_ascii_status_cols row chs toks (k + 1) = some (.ok rest2)) :
    parse_ascii_status_cols row (ch :: chs) (tok :: toks) k =
      some (.ok ({ ch with data := ch.data ++ [v] } :: rest2)) ∧
    status_config_from_config_row
        (split_cfg_line (("3, name, phase, component, 2").toList)) =
      .error (.InvalidNormalStatus 3) ∧
    parse_dat_ascii fixtureStatusAsciiState (("1,,2").toList) =
      some (.ok ⟨[1], [0], [], [⟨fixtureStatusConfig, [2]⟩]⟩) := by
  refine ⟨?_, by decide, by with_unfolding_all rfl⟩
  simp only [parse_ascii_status_cols, hp, hrest]

/-- Witness for C10: the token `2` parses as the `u8` value 2 and is appended
unchanged to the (empty-data) status channel. -/
theorem ascii_status_any_u8_accepted_witness :
    parse_ascii_status_cols 0 [⟨fixtureStatusConfig, []⟩] [("2").toList] 0 =
      some (.ok [{ (⟨fixtureStatusConfig, []⟩ : StatusChannel) with
        data := ([] : List ℕ) ++ [2] }]) :=
  (ascii_status_any_u8_accepted 0 0 ⟨fixtureStatusConfig, []⟩ [] (("2").toList) [] 2 []
    (by decide) (by decide)).1

/-! ### C4 — strict revision gating of the configuration tail -/

/-- C4: revision gating of the optional configuration tail is strict.
For Revision1991 the tail reads nothing: none of the five gated builder
fields is ever populated (the record-level multiplication factor then comes
from the `Default` impl, 1.0).  For Revision1999 the multiplication factor
is populated from the file token and the four 2013-only fields are
explicitly defaulted to unset (`some none` at builder level, i.e. unset in
the record).  For Revision2013 every successful parse populates all five
fields, the quality and leap-second ones with actual values. -/
theorem cfg_tail_revision_gating (lines : List Str) (l : Str) (rest2 rem : List Str)
    (v : ℚ) (b2013 : CfgBuilder) :
    (parse_cfg_tail .Revision1991 lines .init = some (.ok .init) ∧
      CfgBuilder.init.timestamp_multiplication_factor = none ∧
      CfgBuilder.init.time_offset = none ∧
      CfgBuilder.init.local_offset = none ∧
      CfgBuilder.init.time_quality = none ∧
      CfgBuilder.init.leap_second_status = none ∧
      (CfgBuilder.init.timestamp_multiplication_factor).getD
        default_timestamp_multiplication_factor = 1) ∧
    (read_value parseFloatQ f64Type (split_cfg_line l) = .ok (v, rem) →
      parse_cfg_tail .Revision1999 (l :: rest2) .init =
        some (.ok ⟨some v, some none, some none, some none, some none⟩)) ∧
    (parse_cfg_tail .Revision2013 lines .init = some (.ok b2013) →
      b2013.timestamp_multiplication_factor.isSome ∧
      b2013.time_offset.isSome ∧
      b2013.local_offset.isSome ∧
      (∃ q, b2013.time_quality = some (some q)) ∧
      (∃ ls, b2013.leap_second_status = some (some ls))) := by
  refine ⟨⟨by simp [parse_cfg_tail], rfl, rfl, rfl, rfl, rfl, rfl⟩, ?_, ?_⟩
  · intro h
    simp [parse_cfg_tail, h]
  · intro h
    unfold parse_cfg_tail at h
    rw [if_neg (by decide)] at h
    cases lines with
    | nil => simp at h
    | cons l1 rest =>
      cases hr1 : read_value parseFloatQ f64Type (split_cfg_line l1) with
      | error e => simp [hr1] at h
      | ok p1 =>
        obtain ⟨tm, rem1⟩ := p1
        simp only [hr1] at h
        rw [if_neg (by decide)] at h
        cases rest with
        | nil => simp at h
        | cons l2 rest2a =>
          cases hr2 : read_value (fun s => some s) strType (split_cfg_line l2) with
          | error e => simp [hr2] at h
          | ok p2 =>
            obtain ⟨tok1, toks2⟩ := p2
            simp only [hr2] at h
            cases hto1 : parse_time_offset tok1 with
            | none => simp [hto1] at h
            | some r1 =>
              cases r1 with
              | error e => simp [hto1] at h
              | ok off1 =>
                simp only [hto1] at h
                cases hr3 : read_value (fun s => some s) strType toks2 with
                | error e => simp [hr3] at h
                | ok p3 =>
                  obtain ⟨tok2, toks3⟩ := p3
                  simp only [hr3] at h
                  cases hto2 : parse_time_offset tok2 with
                  | none => simp [hto2] at h
                  | some r2 =>
                    cases r2 with
                    | error e => simp [hto2] at h
                    | ok off2 =>
                      simp only [hto2] at h
                      cases rest2a with
                      | nil => simp at h
                      | cons l3 tail =>
                        cases hr4 : read_value parse_time_quality tqType (split_cfg_line l3) with
                        | error e => simp [hr4] at h
                        | ok p4 =>
                          obtain ⟨q, toks4⟩ := p4
                          simp only [hr4] at h
                          cases hr5 : read_value parse_leap_second_status lsType toks4 with
                          | error e => simp [hr5] at h
                          | ok p5 =>
                            obtain ⟨ls, toks5⟩ := p5
                            simp only [hr5, Option.some.injEq, Except.ok.injEq] at h
                            subst h
                            exact ⟨rfl, rfl, rfl, ⟨q, rfl⟩, ⟨ls, rfl⟩⟩

/-- Witness for C4: a Revision1999 tail whose multiplication-factor line is
`1.5` populates the factor with 3/2 and defaults the 2013-only fields to
unset, and a Revision2013 tail `1.5` / `-5h30,x` / `0,3` populates all five
gated fields. -/
theorem cfg_tail_revision_gating_witness :
    parse_cfg_tail .Revision1999 [("1.5").toList] .init =
      some (.ok ⟨some (3 / 2 : ℚ), some none, some none, some none, some none⟩) ∧
    ((⟨some (3 / 2 : ℚ), some (some (-19800)), some none, some (some .ClockLocked),
        some (some .NoCapability)⟩ : CfgBuilder).timestamp_multiplication_factor.isSome ∧
      (⟨some (3 / 2 : ℚ), some (some (-19800)), some none, some (some .ClockLocked),
        some (some .NoCapability)⟩ : CfgBuilder).time_offset.isSome ∧
      (⟨some (3 / 2 : ℚ), some (some (-19800)), some none, some (some .ClockLocked),
        some (some .NoCapability)⟩ : CfgBuilder).local_offset.isSome ∧
      (∃ q, (⟨some (3 / 2 : ℚ), some (some (-19800)), some none, some (some .ClockLocked),
        some (some .NoCapability)⟩ : CfgBuilder).time_quality = some (some q)) ∧
      (∃ ls, (⟨some (3 / 2 : ℚ), some (some (-19800)), some none, some (some .ClockLocked),
        some (some .NoCapability)⟩ : CfgBuilder).leap_second_status = some (some ls))) := by
  constructor
  · exact (cfg_tail_revision_gating [] (("1.5").toList) [] [] (3 / 2)
      CfgBuilder.init).2.1 (by with_unfolding_all rfl)
  · exact (cfg_tail_revision_gating
      [("1.5").toList, ("-5h30,x").toList, ("0,3").toList] [] [] [] 0
      ⟨some (3 / 2 : ℚ), some (some (-19800)), some none, some (some .ClockLocked),
        some (some .NoCapability)⟩).2.2 (by with_unfolding_all rfl)

/-! ### C7 — parse_time_offset, amended -/

/-- `dropWhile` is the identity on a list none of whose elements satisfy the
predicate. -/
theorem dropWhile_eq_self_of_none (p : Char → Bool) (l : Str)
    (h : ∀ c ∈ l, p c = false) : l.dropWhile p = l := by
  cases l with
  | nil => rfl
  | cons c cs => simp [List.dropWhile_cons, h c (by simp)]

/-- `trim` is the identity on whitespace-free strings. -/
theorem trim_eq_self (l : Str) (h : ∀ c ∈ l, isWs c = false) : trim l = l := by
  unfold trim
  rw [dropWhile_eq_self_of_none isWs l h,
    dropWhile_eq_self_of_none isWs l.reverse
      (fun c hc => h c (List.mem_reverse.mp hc)),
    List.reverse_reverse]

/-- An upper-case letter is not a decimal digit. -/
theorem isDigitChar_false_of_upper (c : Char) (h1 : 'A' ≤ c) :
    isDigitChar c = false := by
  have h9 : ¬ c ≤ '9' := by
    intro hle
    have : ('A' : Char) ≤ '9' := le_trans h1 hle
    revert this
    decide
  simp [isDigitChar, h9]

/-- A token whose lower-casing is the literal `x` never parses as an `i32`. -/
theorem parseI32_ne_some_of_lower_x (t : Str) (v : ℤ) (hp : parseI32 t = some v) :
    toLower t ≠ ['x'] := by
  intro hx
  have hsingle : ∃ c, t = [c] ∧ lowerChar c = 'x' := by
    cases t with
    | nil => simp [toLower] at hx
    | cons a rest =>
      cases rest with
      | nil => exact ⟨a, rfl, by simpa [toLower] using hx⟩
      | cons b r2 => simp [toLower] at hx
  obtain ⟨c, rfl, hc⟩ := hsingle
  have hnd : isDigitChar c = false := by
    unfold lowerChar at hc
    split at hc
    · next hAZ => exact isDigitChar_false_of_upper c hAZ.1
    · subst hc
      decide
  by_cases hminus : c = '-'
  · subst hminus
    simp [parseI32] at hp
  · by_cases hplus : c = '+'
    · subst hplus
      simp [parseI32, parseUnsigned] at hp
    · unfold parseI32 at hp
      split at hp
      · simp_all
      · unfold parseUnsigned at hp
        split at hp
        · simp_all
        · simp [hnd] at hp

/-- A token containing the letter `h` never parses as an `i32`. -/
theorem parseI32_none_of_mem_h (t : Str) (hmem : 'h' ∈ t) : parseI32 t = none := by
  have hall : ∀ (l : Str), 'h' ∈ l → l.all isDigitChar = false := by
    intro l hl
    have : ¬ l.all isDigitChar = true := by
      intro habs
      have := (List.all_eq_true.mp habs) 'h' hl
      simp [isDigitChar] at this
    exact Bool.eq_false_iff.mpr (by intro habs; exact this habs)
  unfold parseI32
  split
  · rename_i rest
    have hrest : 'h' ∈ rest := by
      rcases List.mem_cons.mp hmem with h1 | h1
      · exact absurd h1 (by decide)
      · exact h1
    simp [hall rest hrest]
  · unfold parseUnsigned
    split
    · rename_i rest hx
      have hrest : 'h' ∈ rest := by
        rcases List.mem_cons.mp hmem with h1 | h1
        · exact absurd h1 (by decide)
        · exact h1
      simp [hall rest hrest]
    · simp [hall t hmem]

/-- C7, amended: `parse_time_offset` maps the literal `x`/`X` (after trim and
lower-casing) to "not applicable"; a bare token parsing as an `i32` value `h`
to an offset of `h*3600` seconds; and a compound `<hours>h<minutes>` token to
`hours*3600 + minutes*60` when hours is strictly positive and to
`hours*3600 − minutes*60` otherwise — including when hours is zero (the
source tests `hours > 0`, so `-5h30 ↦ −19800` but also `0h30 ↦ −1800`).
Offsets are subject to the `FixedOffset::east` range `(−86400, 86400)`. -/
theorem parse_time_offset_characterization (s hs ms : Str) (h m : ℤ)
    (hhs : ∀ c ∈ hs, c ≠ 'h' ∧ isWs c = false)
    (hms : ∀ c ∈ ms, c ≠ 'h' ∧ isWs c = false) :
    (toLower (trim s) = ['x'] → parse_time_offset s = some (.ok none)) ∧
    (parseI32 (trim s) = some h → -86400 < h * 3600 → h * 3600 < 86400 →
      parse_time_offset s = some (.ok (some (h * 3600)))) ∧
    (parseI32 hs = some h → parseI32 ms = some m →
      -86400 < (if 0 < h then h * 3600 + m * 60 else h * 3600 - m * 60) →
      (if 0 < h then h * 3600 + m * 60 else h * 3600 - m * 60) < 86400 →
      parse_time_offset (hs ++ 'h' :: ms) =
        some (.ok (some (if 0 < h then h * 3600 + m * 60 else h * 3600 - m * 60)))) := by
  refine ⟨?_, ?_, ?_⟩
  · intro hx
    unfold parse_time_offset
    rw [if_pos hx]
  · intro hp hlo hhi
    unfold parse_time_offset
    rw [if_neg (parseI32_ne_some_of_lower_x (trim s) h hp), hp]
    simp [fixed_offset_east, hlo, hhi]
  · intro hph hpm hlo hhi
    have hnws : ∀ c ∈ hs ++ 'h' :: ms, isWs c = false := by
      intro c hc
      rcases List.mem_append.mp hc with h1 | h1
      · exact (hhs c h1).2
      · rcases List.mem_cons.mp h1 with h2 | h2
        · subst h2; decide
        · exact (hms c h2).2
    have htrim : trim (hs ++ 'h' :: ms) = hs ++ 'h' :: ms :=
      trim_eq_self _ hnws
    have hmemh : 'h' ∈ hs ++ 'h' :: ms := List.mem_append.mpr (Or.inr (by simp))
    have hnotx : ¬ toLower (trim (hs ++ 'h' :: ms)) = ['x'] := by
      rw [htrim]
      intro hx
      have hlen := congrArg List.length hx
      simp [toLower] at hlen
      have hhs0 : hs = [] := List.eq_nil_of_length_eq_zero (by omega)
      have hms0 : ms = [] := List.eq_nil_of_length_eq_zero (by omega)
      rw [hhs0, hms0] at hx
      simp [toLower, lowerChar] at hx
    have hsplit : (hs ++ 'h' :: ms).splitOn 'h' = [hs, ms] := by
      show (hs ++ 'h' :: ms).splitOnP (· == 'h') = [hs, ms]
      rw [List.splitOnP_first (· == 'h') hs
        (by intro x hx; simpa using (hhs x hx).1) 'h' (by simp) ms]
      rw [List.splitOnP_eq_single (· == 'h') ms
        (by intro x hx; simpa using (hms x hx).1)]
    have htrimhs : trim hs = hs := trim_eq_self _ (fun c hc => (hhs c hc).2)
    have htrimms : trim ms = ms := trim_eq_self _ (fun c hc => (hms c hc).2)
    unfold parse_time_offset
    rw [htrim] at hnotx ⊢
    rw [if_neg hnotx, parseI32_none_of_mem_h _ hmemh, hsplit]
    simp only [htrimhs, htrimms, hph, hpm]
    simp [fixed_offset_east, hlo, hhi]

/-- Witness for C7: `x` is "not applicable", the bare token `-4` is −14400
seconds, `-5h30` is −19800 seconds, and `0h30` (zero hours) takes the
subtraction branch. -/
theorem parse_time_offset_characterization_witness :
    parse_time_offset (("x").toList) = some (.ok none) ∧
    parse_time_offset (("-4").toList) = some (.ok (some ((-4) * 3600))) ∧
    parse_time_offset ((("-5").toList) ++ 'h' :: (("30").toList)) =
      some (.ok (some (if 0 < (-5 : ℤ) then (-5) * 3600 + 30 * 60
        else (-5) * 3600 - 30 * 60))) ∧
    parse_time_offset ((("0").toList) ++ 'h' :: (("30").toList)) =
      some (.ok (some (if 0 < (0 : ℤ) then 0 * 3600 + 30 * 60
        else 0 * 3600 - 30 * 60))) := by
  refine ⟨?_, ?_, ?_, ?_⟩
  · exact (parse_time_offset_characterization (("x").toList) [] [] 0 0
      (by decide) (by decide)).1 (by decide)
  · exact (parse_time_offset_characterization (("-4").toList) [] [] (-4) 0
      (by decide) (by decide)).2.1 (by decide) (by decide) (by decide)
  · exact (parse_time_offset_characterization [] (("-5").toList) (("30").toList) (-5) 30
      (by decide) (by decide)).2.2 (by decide) (by decide) (by decide) (by decide)
  · exact (parse_time_offset_characterization [] (("0").toList) (("30").toList) 0 30
      (by decide) (by decide)).2.2 (by decide) (by decide) (by decide) (by decide)

/-! ### C6 — status bit-unpacking is the inverse of LSB-first packing -/

/-- Bit `i` of a packed status word is the `i`-th source bit (0 beyond the
end of the chunk). -/
theorem status_word_bit (chunk : List ℕ) (hb : ∀ b ∈ chunk, b < 2) (i : ℕ) :
    status_word chunk / 2 ^ i % 2 = chunk.getD i 0 := by
  induction chunk generalizing i with
  | nil => simp [status_word]
  | cons b bs ih =>
    have hblt : b < 2 := hb b (by simp)
    have hword : status_word (b :: bs) = b + 2 * status_word bs := by
      simp [status_word]
    cases i with
    | zero =>
      rw [hword]
      simp [List.getD]
      omega
    | succ i =>
      rw [hword]
      have hdiv2 : (b + 2 * status_word bs) / 2 = status_word bs := by omega
      rw [pow_succ, mul_comm (2 ^ i) 2, ← Nat.div_div_eq_div_mul, hdiv2]
      simpa [List.getD] using ih (fun x hx => hb x (by simp [hx])) i

/-- Reading a list through `getD` over `range n` appends zero padding. -/
theorem range_map_getD (l : List ℕ) (n : ℕ) (h : l.length ≤ n) :
    (List.range n).map (fun i => l.getD i 0) = l ++ List.replicate (n - l.length) 0 := by
  induction l generalizing n with
  | nil => simp [List.getD]
  | cons a as ih =>
    cases n with
    | zero => simp at h
    | succ m =>
      rw [List.range_succ_eq_map]
      simp only [List.map_cons, List.map_map]
      have hrange : (List.range m).map ((fun i => (a :: as).getD i 0) ∘ Nat.succ) =
          (List.range m).map (fun i => as.getD i 0) := by
        refine List.map_congr_left (fun i _ => ?_)
        simp [List.getD]
      rw [hrange, ih m (by simpa using h)]
      simp [List.getD]

/-- The 16 LSB-first bits of one packed word are the chunk plus zero padding. -/
theorem bits_of_status_word (chunk : List ℕ) (hlen : chunk.length ≤ 16)
    (hb : ∀ b ∈ chunk, b < 2) :
    (List.range 16).map (fun i => status_word chunk / 2 ^ i % 2) =
      chunk ++ List.replicate (16 - chunk.length) 0 := by
  rw [List.map_congr_left (fun i _ => status_word_bit chunk hb i)]
  exact range_map_getD chunk 16 hlen

/-- Each packed group expands to exactly 16 bits. -/
theorem flatten_bits_length (words : List ℕ) :
    ((words.map (fun g => (List.range 16).map (fun b => g / 2 ^ b % 2))).flatten).length =
      16 * words.length := by
  induction words with
  | nil => simp
  | cons w ws ih =>
    simp only [List.map_cons, List.flatten_cons, List.length_append, ih,
      List.length_map, List.length_range, List.length_cons]
    ring

/-- Packing no bits yields no words. -/
theorem pack_status_bits_nil : pack_status_bits [] = [] := by
  rw [pack_status_bits]
  simp

/-- The packed word list has exactly `⌈n/16⌉` entries. -/
theorem pack_status_bits_length (bits : List ℕ) :
    (pack_status_bits bits).length = (bits.length + 15) / 16 := by
  induction bits using pack_status_bits.induct with
  | case1 => simp [pack_status_bits]
  | case2 bits hne ih =>
    rw [pack_status_bits, dif_neg hne]
    have hlen : bits.length ≠ 0 := fun h0 => hne (List.eq_nil_of_length_eq_zero h0)
    simp only [List.length_cons, ih, List.length_drop]
    omega

/-- Unpacking the packed words recovers the original bit sequence. -/
theorem unpack_pack_roundtrip (bits : List ℕ) (hb : ∀ b ∈ bits, b < 2) :
    unpack_status_words (pack_status_bits bits) bits.length = bits := by
  induction bits using pack_status_bits.induct with
  | case1 => simp [pack_status_bits, unpack_status_words]
  | case2 bits hne ih =>
    rw [pack_status_bits, dif_neg hne]
    have hbtake : ∀ b ∈ bits.take 16, b < 2 :=
      fun b hbm => hb b (List.mem_of_mem_take hbm)
    have hbdrop : ∀ b ∈ bits.drop 16, b < 2 :=
      fun b hbm => hb b (List.mem_of_mem_drop hbm)
    have hlentake : (bits.take 16).length ≤ 16 := by
      simp [List.length_take]
    unfold unpack_status_words at ih ⊢
    simp only [List.map_cons, List.flatten_cons]
    rw [bits_of_status_word (bits.take 16) hlentake hbtake]
    by_cases hle : bits.length ≤ 16
    · have htake : bits.take 16 = bits := List.take_of_length_le hle
      have hdrop : bits.drop 16 = [] := List.drop_eq_nil_of_le hle
      rw [htake, hdrop, pack_status_bits_nil]
      simp only [List.map_nil, List.flatten_nil, List.append_nil]
      rw [List.take_append_eq_append_take, List.take_of_length_le (le_refl _),
        Nat.sub_self, List.take_zero, List.append_nil]
    · have hlentake16 : (bits.take 16).length = 16 := by
        simp [List.length_take]
        omega
      have hpad : List.replicate (16 - (bits.take 16).length) 0 = ([] : List ℕ) := by
        rw [hlentake16]
        simp
      rw [hpad, List.append_nil]
      rw [List.take_append_eq_append_take, List.take_of_length_le (by omega),
        hlentake16]
      have hdlen : (bits.drop 16).length = bits.length - 16 := List.length_drop 16 bits
      rw [← hdlen, ih hbdrop]
      exact List.take_append_drop 16 bits

/-- Element `16*g + i` of the concatenated bit expansion is bit `i` of word
`g`. -/
theorem flatten_bits_getD (words : List ℕ) (g i : ℕ) (hi : i < 16)
    (hg : g < words.length) :
    ((words.map (fun w => (List.range 16).map (fun b => w / 2 ^ b % 2))).flatten).getD
        (16 * g + i) 0 =
      (words.getD g 0) / 2 ^ i % 2 := by
  induction words generalizing g with
  | nil => simp at hg
  | cons w ws ih =>
    simp only [List.map_cons, List.flatten_cons]
    cases g with
    | zero =>
      rw [Nat.mul_zero, Nat.zero_add]
      rw [List.getD_append _ _ _ _ (by simpa using hi)]
      simp [List.getD_eq_getElem?_getD, List.getElem?_map, List.getElem?_range, hi]
    | succ g =>
      have hidx : 16 ≤ 16 * (g + 1) + i := by omega
      rw [List.getD_append_right _ _ _ _ (by simpa using hidx)]
      have harith : 16 * (g + 1) + i - ((List.range 16).map
          (fun b => w / 2 ^ b % 2)).length = 16 * g + i := by
        simp
        omega
      rw [harith]
      simpa [List.getD] using ih g (by simpa using Nat.lt_of_succ_lt_succ hg)

/-- Truncating the concatenated expansion to `n ≤ 16 * #words` keeps exactly
`n` entries. -/
theorem unpack_status_words_length (words : List ℕ) (n : ℕ)
    (hn : n ≤ 16 * words.length) :
    (unpack_status_words words n).length = n := by
  unfold unpack_status_words
  rw [List.length_take, flatten_bits_length]
  omega

/-- C6: the status bit-unpacking of the binary decoder is the exact inverse
of group-wise 16-bit LSB-first packing truncated to the declared status
channel count: (1) packing any 0/1 sequence into `⌈n/16⌉` words (which is
exactly the decoder's group count whenever the `u8` group counter does not
saturate, i.e. `n ≤ 4080`) and unpacking recovers the sequence, padding
bits in the final word being discarded by the truncation; (2) entry
`16*g + i` of the unpacked list is bit `i` of word `g`; (3) the unpacked
list has exactly the declared number of entries. -/
theorem status_unpack_inverse_of_pack :
    (∀ bits : List ℕ, (∀ b ∈ bits, b < 2) → bits.length ≤ 4080 →
      unpack_status_words (pack_status_bits bits) bits.length = bits ∧
      (pack_status_bits bits).length = num_status_groups bits.length) ∧
    (∀ (words : List ℕ) (n g i : ℕ), i < 16 → 16 * g + i < n →
      n ≤ 16 * words.length →
      (unpack_status_words words n).getD (16 * g + i) 0 =
        (words.getD g 0) / 2 ^ i % 2) ∧
    (∀ (words : List ℕ) (n : ℕ), n ≤ 16 * words.length →
      (unpack_status_words words n).length = n) := by
  refine ⟨?_, ?_, unpack_status_words_length⟩
  · intro bits hb hlen
    refine ⟨unpack_pack_roundtrip bits hb, ?_⟩
    rw [pack_status_bits_length]
    unfold num_status_groups
    omega
  · intro words n g i hi hgi hn
    unfold unpack_status_words
    have hg : g < words.length := by omega
    have htake : ((words.map (fun w => (List.range 16).map
        (fun b => w / 2 ^ b % 2))).flatten.take n).getD (16 * g + i) 0 =
        ((words.map (fun w => (List.range 16).map
        (fun b => w / 2 ^ b % 2))).flatten).getD (16 * g + i) 0 := by
      simp only [List.getD_eq_getElem?_getD, List.getElem?_take]
      rw [if_pos hgi]
    rw [htake]
    exact flatten_bits_getD words g i hi hg

/-- Witness for C6: the three-bit sequence `[1,0,1]` packs into the single
word 5 and unpacks back to itself; bit 2 of word 5 is 1; the unpacked list
keeps exactly the declared three entries. -/
theorem status_unpack_inverse_of_pack_witness :
    unpack_status_words (pack_status_bits [1, 0, 1]) 3 = [1, 0, 1] ∧
    (unpack_status_words [5] 3).getD 2 0 = 5 / 2 ^ 2 % 2 ∧
    (unpack_status_words [5] 3).length = 3 := by
  refine ⟨(status_unpack_inverse_of_pack.1 [1, 0, 1] (by decide) (by decide)).1,
    ?_, status_unpack_inverse_of_pack.2.2 [5] 3 (by decide)⟩
  have h := status_unpack_inverse_of_pack.2.1 [5] 3 0 2 (by decide) (by decide) (by decide)
  simpa using h

/-! ### C5 — channel counts and data lengths -/

/-- C5 counterexample: the text-mode decoder never checks the number of data
rows against `total_num_samples`.  A configuration whose rate table ends at
sample 5 (`total_num_samples = 5`) combined with a data file of only three
rows parses successfully, leaving the analog channel with three data points,
not five — so after this successful parse the channel's data length differs
from the total sample count, contradicting the claim as stated. -/
theorem ascii_row_count_not_checked :
    parse_dat_ascii fixtureAsciiState (("1,,0\n2,,5\n3,,7").toList) =
      some (.ok ⟨[1, 2, 3], [0, 1 / 1000, 1 / 500],
        [⟨fixtureAnalogConfig, [0, 5, 7]⟩], []⟩) ∧
    fixtureAsciiState.total_num_samples = 5 ∧
    ([0, 5, 7] : List ℚ).length = 3 ∧ (3 : ℕ) ≠ 5 := by
  refine ⟨by with_unfolding_all rfl, rfl, rfl, by decide⟩

/-- `parse_cfg` builds one `AnalogChannel` per parsed config row
(`cfg/mod.rs` lines 67-73), with empty data. -/
def mk_analog_channels (cs : List AnalogConfig) : List AnalogChannel :=
  cs.map (fun c => ⟨c, []⟩)

/-- `parse_cfg` builds one `StatusChannel` per parsed config row
(`cfg/mod.rs` lines 74-80), with empty data. -/
def mk_status_channels (cs : List StatusConfig) : List StatusChannel :=
  cs.map (fun c => ⟨c, []⟩)

/-- A successful run of the analog-row loop yields exactly `n` configs. -/
theorem parse_analog_rows_length (n : ℕ) :
    ∀ (lines : List Str) (cs : List AnalogConfig) (rem : List Str),
    parse_analog_rows n lines = .ok (cs, rem) → cs.length = n := by
  induction n with
  | zero =>
    intro lines cs rem h
    simp only [parse_analog_rows, Except.ok.injEq] at h
    obtain ⟨h1, _⟩ := Prod.mk.injEq .. ▸ h
    simp [← h1]
  | succ n ih =>
    intro lines cs rem h
    cases lines with
    | nil => simp [parse_analog_rows] at h
    | cons l rest =>
      simp only [parse_analog_rows] at h
      cases hc : analog_config_from_cfg_row (split_cfg_line l) with
      | error e => rw [hc] at h; simp at h
      | ok c =>
        rw [hc] at h
        cases hr : parse_analog_rows n rest with
        | error e => rw [hr] at h; simp at h
        | ok p =>
          obtain ⟨cs0, rem0⟩ := p
          rw [hr] at h
          simp only [Except.ok.injEq, Prod.mk.injEq] at h
          obtain ⟨h1, _⟩ := h
          rw [← h1]
          simp [ih rest cs0 rem0 hr]

/-- A successful run of the status-row loop yields exactly `n` configs. -/
theorem parse_status_rows_length (n : ℕ) :
    ∀ (lines : List Str) (cs : List StatusConfig) (rem : List Str),
    parse_status_rows n lines = .ok (cs, rem) → cs.length = n := by
  induction n with
  | zero =>
    intro lines cs rem h
    simp only [parse_status_rows, Except.ok.injEq] at h
    obtain ⟨h1, _⟩ := Prod.mk.injEq .. ▸ h
    simp [← h1]
  | succ n ih =>
    intro lines cs rem h
    cases lines with
    | nil => simp [parse_status_rows] at h
    | cons l rest =>
      simp only [parse_status_rows] at h
      cases hc : status_config_from_config_row (split_cfg_line l) with
      | error e => rw [hc] at h; simp at h
      | ok c =>
        rw [hc] at h
        cases hr : parse_status_rows n rest with
        | error e => rw [hr] at h; simp at h
        | ok p =>
          obtain ⟨cs0, rem0⟩ := p
          rw [hr] at h
          simp only [Except.ok.injEq, Prod.mk.injEq] at h
          obtain ⟨h1, _⟩ := h
          rw [← h1]
          simp [ih rest cs0 rem0 hr]

/-- Transfers a pointwise property along a `Forall₂` relation. -/
theorem forall_mem_of_forall₂ {α β : Type} (R : α → β → Prop) (P : α → Prop)
    (Q : β → Prop) (himp : ∀ a b, P a → R a b → Q b) :
    ∀ (l1 : List α) (l2 : List β), List.Forall₂ R l1 l2 →
    (∀ a ∈ l1, P a) → ∀ b ∈ l2, Q b := by
  intro l1 l2 hf
  induction hf with
  | nil => intro _ b hb; cases hb
  | cons hr hrest ih =>
    intro hp b hb
    rcases List.mem_cons.mp hb with h1 | h1
    · subst h1
      exact himp _ _ (hp _ (by simp)) hr
    · exact ih (fun a ha => hp a (by simp [ha])) b h1

/-- A successful analog-column pass appends exactly one value to each of the
first `#toks` channels (and the decoder hands it a token per channel). -/
theorem parse_ascii_analog_cols_shape (row : ℕ) :
    ∀ (toks : List Str) (chs chs2 : List AnalogChannel) (k : ℕ),
    toks.length = chs.length →
    parse_ascii_analog_cols row chs toks k = some (.ok chs2) →
    List.Forall₂ (fun ch ch2 => ch2.data.length = ch.data.length + 1) chs chs2 := by
  intro toks
  induction toks with
  | nil =>
    intro chs chs2 k hlen h
    have hnil : chs = [] := List.eq_nil_of_length_eq_zero (by simpa using hlen.symm)
    subst hnil
    simp only [parse_ascii_analog_cols, Option.some.injEq, Except.ok.injEq] at h
    subst h
    exact List.Forall₂.nil
  | cons t ts ih =>
    intro chs chs2 k hlen h
    cases chs with
    | nil => simp at hlen
    | cons ch cs =>
      simp only [parse_ascii_analog_cols] at h
      cases hparse : parseFloatQ (trim t) with
      | none => rw [hparse] at h; simp at h
      | some raw =>
        rw [hparse] at h
        cases hrec : parse_ascii_analog_cols row cs ts (k + 1) with
        | none => rw [hrec] at h; simp at h
        | some r =>
          cases r with
          | error e => rw [hrec] at h; simp at h
          | ok rest2 =>
            rw [hrec] at h
            simp only [Option.some.injEq, Except.ok.injEq] at h
            subst h
            exact List.Forall₂.cons (by simp)
              (ih cs rest2 (k + 1) (by simpa using hlen) hrec)

/-- A successful status-column pass appends exactly one value to each of the
first `#toks` channels. -/
theorem parse_ascii_status_cols_shape (row : ℕ) :
    ∀ (toks : List Str) (chs chs2 : List StatusChannel) (k : ℕ),
    toks.length = chs.length →
    parse_ascii_status_cols row chs toks k = some (.ok chs2) →
    List.Forall₂ (fun ch ch2 => ch2.data.length = ch.data.length + 1) chs chs2 := by
  intro toks
  induction toks with
  | nil =>
    intro chs chs2 k hlen h
    have hnil : chs = [] := List.eq_nil_of_length_eq_zero (by simpa using hlen.symm)
    subst hnil
    simp only [parse_ascii_status_cols, Option.some.injEq, Except.ok.injEq] at h
    subst h
    exact List.Forall₂.nil
  | cons t ts ih =>
    intro chs chs2 k hlen h
    cases chs with
    | nil => simp at hlen
    | cons ch cs =>
      simp only [parse_ascii_status_cols] at h
      cases hparse : parseU8 (trim t) with
      | none => rw [hparse] at h; simp at h
      | some v =>
        rw [hparse] at h
        cases hrec : parse_ascii_status_cols row cs ts (k + 1) with
        | none => rw [hrec] at h; simp at h
        | some r =>
          cases r with
          | error e => rw [hrec] at h; simp at h
          | ok rest2 =>
            rw [hrec] at h
            simp only [Option.some.injEq, Except.ok.injEq] at h
            subst h
            exact List.Forall₂.cons (by simp)
              (ih cs rest2 (k + 1) (by simpa using hlen) hrec)

/-- A successfully decoded text row appends exactly one value to every
declared channel. -/
theorem parse_ascii_row_shape (nA nS : ℕ) (time : TimeState) (row : ℕ) (line : Str)
    (analog analog2 : List AnalogChannel) (status status2 : List StatusChannel)
    (sn : ℕ) (t : ℚ)
    (hA : analog.length = nA) (hS : status.length = nS)
    (h : parse_ascii_row nA nS time row line analog status =
      some (.ok (sn, t, analog2, status2))) :
    List.Forall₂ (fun ch ch2 => ch2.data.length = ch.data.length + 1) analog analog2 ∧
    List.Forall₂ (fun ch ch2 => ch2.data.length = ch.data.length + 1) status status2 := by
  unfold parse_ascii_row at h
  simp only [] at h
  split at h
  · simp at h
  · rename_i hcols
    have hvals : (line.splitOn ',').length = nS + nA + 2 := by
      by_contra hne
      exact hcols (by simpa using hne)
    cases hsn : parseU32 (trim ((line.splitOn ',').getD 0 [])) with
    | none => simp only [hsn] at h; simp at h
    | some sample_number =>
      simp only [hsn] at h
      cases hts : (if trim ((line.splitOn ',').getD 1 []) = [] then Except.ok none
          else match parseU32 (trim ((line.splitOn ',').getD 1 [])) with
            | none => Except.error (ParseError.invalidTimestamp row
                (trim ((line.splitOn ',').getD 1 [])))
            | some v => Except.ok (some v)) with
      | error e => simp only [hts] at h; simp at h
      | ok ts =>
        simp only [hts] at h
        cases hrt : real_time time sample_number ts with
        | error e => simp only [hrt] at h; simp at h
        | ok tval =>
          simp only [hrt] at h
          cases hac : parse_ascii_analog_cols row analog
              (((line.splitOn ',').drop 2).take nA) 0 with
          | none => simp only [hac] at h; simp at h
          | some ra =>
            cases ra with
            | error e => simp only [hac] at h; simp at h
            | ok analog2x =>
              simp only [hac] at h
              cases hsc : parse_ascii_status_cols row status
                  ((line.splitOn ',').drop (2 + nA)) 0 with
              | none => simp only [hsc] at h; simp at h
              | some rs =>
                cases rs with
                | error e => simp only [hsc] at h; simp at h
                | ok status2x =>
                  simp only [hsc, Option.some.injEq, Except.ok.injEq,
                    Prod.mk.injEq] at h
                  obtain ⟨_, _, ha2, hs2⟩ := h
                  subst ha2
                  subst hs2
                  constructor
                  · refine parse_ascii_analog_cols_shape row _ analog analog2x 0 ?_ hac
                    simp [List.length_take, List.length_drop, hvals, hA]
                  · refine parse_ascii_status_cols_shape row _ status status2x 0 ?_ hsc
                    simp [List.length_drop, hvals, hS]
                    omega

/-- Loop invariant of the text-mode row loop: starting from channel lists of
the declared sizes whose data all has length `LA` / `LS`, a successful pass
over `lines` leaves every channel with `LA + #lines` / `LS + #lines` data
points. -/
theorem parse_dat_ascii_go_lengths (nA nS : ℕ) (time : TimeState) :
    ∀ (lines : List Str) (analog : List AnalogChannel) (status : List StatusChannel)
      (sns : List ℕ) (tss : List ℚ) (row : ℕ) (res : DatResult) (LA LS : ℕ),
    parse_dat_ascii_go nA nS time analog status sns tss row lines = some (.ok res) →
    analog.length = nA → status.length = nS →
    (∀ ch ∈ analog, ch.data.length = LA) →
    (∀ ch ∈ status, ch.data.length = LS) →
    (∀ ch ∈ res.analog_channels, ch.data.length = LA + lines.length) ∧
    (∀ ch ∈ res.status_channels, ch.data.length = LS + lines.length) := by
  intro lines
  induction lines with
  | nil =>
    intro analog status sns tss row res LA LS h hA hS hLA hLS
    simp only [parse_dat_ascii_go, Option.some.injEq, Except.ok.injEq] at h
    subst h
    simpa using ⟨hLA, hLS⟩
  | cons l rest ih =>
    intro analog status sns tss row res LA LS h hA hS hLA hLS
    simp only [parse_dat_ascii_go] at h
    cases hrow : parse_ascii_row nA nS time row l analog status with
    | none => simp only [hrow] at h; simp at h
    | some r =>
      cases r with
      | error e => simp only [hrow] at h; simp at h
      | ok quad =>
        obtain ⟨sn, tval, analog2, status2⟩ := quad
        simp only [hrow] at h
        obtain ⟨hfa, hfs⟩ := parse_ascii_row_shape nA nS time row l analog analog2
          status status2 sn tval hA hS hrow
        have hA2 : analog2.length = nA := by rw [← hfa.length_eq]; exact hA
        have hS2 : status2.length = nS := by rw [← hfs.length_eq]; exact hS
        have hLA2 : ∀ ch ∈ analog2, ch.data.length = LA + 1 :=
          forall_mem_of_forall₂ _ (fun ch => ch.data.length = LA) _
            (fun a b hp hr => by rw [hr, hp]) analog analog2 hfa hLA
        have hLS2 : ∀ ch ∈ status2, ch.data.length = LS + 1 :=
          forall_mem_of_forall₂ _ (fun ch => ch.data.length = LS) _
            (fun a b hp hr => by rw [hr, hp]) status status2 hfs hLS
        obtain ⟨hresa, hress⟩ := ih analog2 status2 (sns ++ [sn]) (tss ++ [tval])
          (row + 1) res (LA + 1) (LS + 1) h hA2 hS2 hLA2 hLS2
        constructor
        · intro ch hch
          rw [hresa ch hch]
          simp
          omega
        · intro ch hch
          rw [hress ch hch]
          simp
          omega

/-- The text-mode decoder leaves every channel with one data point per
non-blank line of the data file. -/
theorem parse_dat_ascii_lengths (st : DatParserState) (contents : Str)
    (res : DatResult)
    (h : parse_dat_ascii st contents = some (.ok res))
    (hA : st.analog_channels.length = st.num_analog_channels)
    (hS : st.status_channels.length = st.num_status_channels)
    (hLA : ∀ ch ∈ st.analog_channels, ch.data = [])
    (hLS : ∀ ch ∈ st.status_channels, ch.data = []) :
    (∀ ch ∈ res.analog_channels, ch.data.length =
      ((contents.splitOn '\n').filter (fun l => ¬ trim l = [])).length) ∧
    (∀ ch ∈ res.status_channels, ch.data.length =
      ((contents.splitOn '\n').filter (fun l => ¬ trim l = [])).length) := by
  unfold parse_dat_ascii at h
  have := parse_dat_ascii_go_lengths st.num_analog_channels st.num_status_channels
    st.time ((contents.splitOn '\n').filter (fun l => ¬ trim l = []))
    st.analog_channels st.status_channels [] [] 0 res 0 0 h hA hS
    (fun ch hch => by rw [hLA ch hch]; rfl)
    (fun ch hch => by rw [hLS ch hch]; rfl)
  simpa using this

/-- A successful analog read in binary mode produces one value per requested
channel. -/
theorem read_scaled_analog_length (fmt : Option DataFormat) :
    ∀ (k : ℕ) (chs : List AnalogChannel) (bytes : List ℕ) (vs : List ℚ)
      (bytes2 : List ℕ),
    read_scaled_analog fmt chs k bytes = some (vs, bytes2) → vs.length = k := by
  intro k
  induction k with
  | zero =>
    intro chs bytes vs bytes2 h
    simp only [read_scaled_analog, Option.some.injEq, Prod.mk.injEq] at h
    rw [← h.1]
    rfl
  | succ k ih =>
    intro chs bytes vs bytes2 h
    cases chs with
    | nil => simp [read_scaled_analog] at h
    | cons ch rest =>
      simp only [read_scaled_analog] at h
      cases hraw : read_raw_analog fmt bytes with
      | none => simp only [hraw] at h; simp at h
      | some p =>
        obtain ⟨raw, bytesM⟩ := p
        simp only [hraw] at h
        cases hrec : read_scaled_analog fmt rest k bytesM with
        | none => simp only [hrec] at h; simp at h
        | some q =>
          obtain ⟨vs0, bytesR⟩ := q
          simp only [hrec, Option.some.injEq, Prod.mk.injEq] at h
          rw [← h.1]
          simp [ih rest bytesM vs0 bytesR hrec]

/-- Pushing one value per channel appends exactly one data point to each. -/
theorem push_analog_data_shape :
    ∀ (vs : List ℚ) (chs chs2 : List AnalogChannel),
    chs.length = vs.length →
    push_analog_data chs vs = some chs2 →
    List.Forall₂ (fun ch ch2 => ch2.data.length = ch.data.length + 1) chs chs2 := by
  intro vs
  induction vs with
  | nil =>
    intro chs chs2 hlen h
    have : chs = [] := List.eq_nil_of_length_eq_zero (by simpa using hlen)
    subst this
    simp only [push_analog_data, Option.some.injEq] at h
    subst h
    exact List.Forall₂.nil
  | cons v vs ih =>
    intro chs chs2 hlen h
    cases chs with
    | nil => simp at hlen
    | cons ch rest =>
      simp only [push_analog_data] at h
      cases hrec : push_analog_data rest vs with
      | none => simp only [hrec] at h; simp at h
      | some out =>
        simp only [hrec, Option.map_some', Option.some.injEq] at h
        subst h
        exact List.Forall₂.cons (by simp) (ih rest out (by simpa using hlen) hrec)

/-- Pushing one status value per channel appends exactly one data point to
each. -/
theorem push_status_data_shape :
    ∀ (vs : List ℕ) (chs chs2 : List StatusChannel),
    chs.length = vs.length →
    push_status_data chs vs = some chs2 →
    List.Forall₂ (fun ch ch2 => ch2.data.length = ch.data.length + 1) chs chs2 := by
  intro vs
  induction vs with
  | nil =>
    intro chs chs2 hlen h
    have : chs = [] := List.eq_nil_of_length_eq_zero (by simpa using hlen)
    subst this
    simp only [push_status_data, Option.some.injEq] at h
    subst h
    exact List.Forall₂.nil
  | cons v vs ih =>
    intro chs chs2 hlen h
    cases chs with
    | nil => simp at hlen
    | cons ch rest =>
      simp only [push_status_data] at h
      cases hrec : push_status_data rest vs with
      | none => simp only [hrec] at h; simp at h
      | some out =>
        simp only [hrec, Option.map_some', Option.some.injEq] at h
        subst h
        exact List.Forall₂.cons (by simp) (ih rest out (by simpa using hlen) hrec)

/-- A successful run of `read_u16_words` yields exactly `k` words. -/
theorem read_u16_words_length :
    ∀ (k : ℕ) (bytes : List ℕ) (ws : List ℕ) (bytes2 : List ℕ),
    read_u16_words k bytes = some (ws, bytes2) → ws.length = k := by
  intro k
  induction k with
  | zero =>
    intro bytes ws bytes2 h
    simp only [read_u16_words, Option.some.injEq, Prod.mk.injEq] at h
    rw [← h.1]
    rfl
  | succ k ih =>
    intro bytes ws bytes2 h
    simp only [read_u16_words] at h
    cases hw : read_u16_le bytes with
    | none => simp only [hw] at h; simp at h
    | some p =>
      obtain ⟨w, rest⟩ := p
      simp only [hw] at h
      cases hrec : read_u16_words k rest with
      | none => simp only [hrec] at h; simp at h
      | some q =>
        obtain ⟨ws0, bytesR⟩ := q
        simp only [hrec, Option.map_some', Option.some.injEq, Prod.mk.injEq] at h
        rw [← h.1]
        simp [ih rest ws0 bytesR hrec]

/-- Loop invariant of the binary record loop: when the `u8` group counter
does not saturate (`nS ≤ 4080`), each successfully decoded record appends
exactly one data point to every declared channel. -/
theorem parse_dat_binary_go_lengths (fmt : Option DataFormat) (nA nS : ℕ)
    (time : TimeState) (hnS : nS ≤ 4080) :
    ∀ (remaining : ℕ) (analog : List AnalogChannel) (status : List StatusChannel)
      (sns : List ℕ) (tss : List ℚ) (bytes : List ℕ) (res : DatResult) (LA LS : ℕ),
    parse_dat_binary_go fmt nA nS time analog status sns tss remaining bytes =
      some (.ok res) →
    analog.length = nA → status.length = nS →
    (∀ ch ∈ analog, ch.data.length = LA) →
    (∀ ch ∈ status, ch.data.length = LS) →
    (∀ ch ∈ res.analog_channels, ch.data.length = LA + remaining) ∧
    (∀ ch ∈ res.status_channels, ch.data.length = LS + remaining) := by
  intro remaining
  induction remaining with
  | zero =>
    intro analog status sns tss bytes res LA LS h hA hS hLA hLS
    simp only [parse_dat_binary_go, Option.some.injEq, Except.ok.injEq] at h
    subst h
    simpa using ⟨hLA, hLS⟩
  | succ r ih =>
    intro analog status sns tss bytes res LA LS h hA hS hLA hLS
    simp only [parse_dat_binary_go] at h
    cases h1 : read_u32_le bytes with
    | none => simp only [h1] at h; simp at h
    | some p1 =>
      obtain ⟨sn, b1⟩ := p1
      simp only [h1] at h
      cases h2 : read_u32_le b1 with
      | none => simp only [h2] at h; simp at h
      | some p2 =>
        obtain ⟨tsv, b2⟩ := p2
        simp only [h2] at h
        cases h3 : real_time time sn
            (if tsv = TIMESTAMP_MISSING then none else some tsv) with
        | error e => simp only [h3] at h; simp at h
        | ok t =>
          simp only [h3] at h
          cases h4 : read_scaled_analog fmt analog nA b2 with
          | none => simp only [h4] at h; simp at h
          | some p4 =>
            obtain ⟨avs, b3⟩ := p4
            simp only [h4] at h
            cases h5 : push_analog_data analog avs with
            | none => simp only [h5] at h; simp at h
            | some analog2 =>
              simp only [h5] at h
              cases h6 : read_u16_words (num_status_groups nS) b3 with
              | none => simp only [h6] at h; simp at h
              | some p6 =>
                obtain ⟨words, b4⟩ := p6
                simp only [h6] at h
                cases h7 : push_status_data status (unpack_status_words words nS) with
                | none => simp only [h7] at h; simp at h
                | some status2 =>
                  simp only [h7] at h
                  have havs : avs.length = nA :=
                    read_scaled_analog_length fmt nA analog b2 avs b3 h4
                  have hwords : words.length = num_status_groups nS :=
                    read_u16_words_length (num_status_groups nS) b3 words b4 h6
                  have hunpack : (unpack_status_words words nS).length = nS := by
                    refine unpack_status_words_length words nS ?_
                    rw [hwords]
                    unfold num_status_groups
                    omega
                  have hfa := push_analog_data_shape avs analog analog2
                    (by rw [hA, havs]) h5
                  have hfs := push_status_data_shape (unpack_status_words words nS)
                    status status2 (by rw [hS, hunpack]) h7
                  have hA2 : analog2.length = nA := by rw [← hfa.length_eq]; exact hA
                  have hS2 : status2.length = nS := by rw [← hfs.length_eq]; exact hS
                  have hLA2 : ∀ ch ∈ analog2, ch.data.length = LA + 1 :=
                    forall_mem_of_forall₂ _ (fun ch => ch.data.length = LA) _
                      (fun a b hp hr => by rw [hr, hp]) analog analog2 hfa hLA
                  have hLS2 : ∀ ch ∈ status2, ch.data.length = LS + 1 :=
                    forall_mem_of_forall₂ _ (fun ch => ch.data.length = LS) _
                      (fun a b hp hr => by rw [hr, hp]) status status2 hfs hLS
                  obtain ⟨hresa, hress⟩ := ih analog2 status2 (sns ++ [sn])
                    (tss ++ [t]) b4 res (LA + 1) (LS + 1) h hA2 hS2 hLA2 hLS2
                  constructor
                  · intro ch hch
                    rw [hresa ch hch]
                    omega
                  · intro ch hch
                    rw [hress ch hch]
                    omega

/-- C5, amended: after a successful configuration parse the number of analog
(resp. status) channels equals the declared count, each channel starting
with empty data; after a successful decode every channel's data length
equals the number of decoded sample records — in binary mode that is exactly
`total_num_samples` (when the `u8` status-group counter does not saturate,
`nS ≤ 4080`), but in text mode it is the number of non-blank data rows,
which the decoder does NOT validate against the declared total sample
count. -/
theorem channel_counts_and_data_lengths
    (n : ℕ) (lines : List Str) (acs : List AnalogConfig) (scs : List StatusConfig)
    (rem rem2 : List Str) (st : DatParserState) (contents : Str) (bytes : List ℕ)
    (res res2 : DatResult) :
    (parse_analog_rows n lines = .ok (acs, rem) →
      (mk_analog_channels acs).length = n ∧
      ∀ ch ∈ mk_analog_channels acs, ch.data = []) ∧
    (parse_status_rows n lines = .ok (scs, rem2) →
      (mk_status_channels scs).length = n ∧
      ∀ ch ∈ mk_status_channels scs, ch.data = []) ∧
    (parse_dat_ascii st contents = some (.ok res) →
      st.analog_channels.length = st.num_analog_channels →
      st.status_channels.length = st.num_status_channels →
      (∀ ch ∈ st.analog_channels, ch.data = []) →
      (∀ ch ∈ st.status_channels, ch.data = []) →
      (∀ ch ∈ res.analog_channels, ch.data.length =
        ((contents.splitOn '\n').filter (fun l => ¬ trim l = [])).length) ∧
      (∀ ch ∈ res.status_channels, ch.data.length =
        ((contents.splitOn '\n').filter (fun l => ¬ trim l = [])).length)) ∧
    (parse_dat_binary st bytes = some (.ok res2) →
      st.analog_channels.length = st.num_analog_channels →
      st.status_channels.length = st.num_status_channels →
      st.num_status_channels ≤ 4080 →
      (∀ ch ∈ st.analog_channels, ch.data = []) →
      (∀ ch ∈ st.status_channels, ch.data = []) →
      (∀ ch ∈ res2.analog_channels, ch.data.length = st.total_num_samples) ∧
      (∀ ch ∈ res2.status_channels, ch.data.length = st.total_num_samples)) := by
  refine ⟨?_, ?_, ?_, ?_⟩
  · intro h
    constructor
    · simpa [mk_analog_channels] using parse_analog_rows_length n lines acs rem h
    · intro ch hch
      simp only [mk_analog_channels, List.mem_map] at hch
      obtain ⟨c, _, hc⟩ := hch
      rw [← hc]
  · intro h
    constructor
    · simpa [mk_status_channels] using parse_status_rows_length n lines scs rem2 h
    · intro ch hch
      simp only [mk_status_channels, List.mem_map] at hch
      obtain ⟨c, _, hc⟩ := hch
      rw [← hc]
  · intro h hA hS hLA hLS
    exact parse_dat_ascii_lengths st contents res h hA hS hLA hLS
  · intro h hA hS hn hLA hLS
    unfold parse_dat_binary at h
    have := parse_dat_binary_go_lengths st.data_format st.num_analog_channels
      st.num_status_channels st.time hn st.total_num_samples
      st.analog_channels st.status_channels [] [] bytes res2 0 0 h hA hS
      (fun ch hch => by rw [hLA ch hch]; rfl)
      (fun ch hch => by rw [hLS ch hch]; rfl)
    simpa using this

/-- Witness for C5 (amended): one parsed analog row and one parsed status
row each yield exactly one channel with empty data; a three-row text data
file leaves the single analog channel with three data points; a one-record
Binary16 stream leaves both channels with one data point each
(`total_num_samples = 1`). -/
theorem channel_counts_and_data_lengths_witness :
    ((mk_analog_channels [⟨1, ("cha").toList, ['A'], ("comp").toList, ['V'],
        -10, 10, 1, 0, 0, 1, 1, .Primary⟩]).length = 1 ∧
      ∀ ch ∈ mk_analog_channels [⟨1, ("cha").toList, ['A'], ("comp").toList, ['V'],
        -10, 10, 1, 0, 0, 1, 1, .Primary⟩], ch.data = []) ∧
    (∀ ch ∈ [(⟨fixtureAnalogConfig, [0, 5, 7]⟩ : AnalogChannel)], ch.data.length =
      (((("1,,0\n2,,5\n3,,7").toList).splitOn '\n').filter
        (fun l => ¬ trim l = [])).length) ∧
    (∀ ch ∈ [(⟨fixtureAnalogConfig, [16]⟩ : AnalogChannel)],
      ch.data.length = (fixtureBinaryState .Binary16).total_num_samples) := by
  refine ⟨?_, ?_, ?_⟩
  · exact (channel_counts_and_data_lengths 1
      [("1,cha,A,comp,V,1.0,0.0,0.0,-10.0,10.0,1.0,1.0,P").toList]
      [⟨1, ("cha").toList, ['A'], ("comp").toList, ['V'],
        -10, 10, 1, 0, 0, 1, 1, .Primary⟩] [] [] []
      fixtureAsciiState [] [] ⟨[], [], [], []⟩ ⟨[], [], [], []⟩).1
      (by with_unfolding_all rfl)
  · exact ((channel_counts_and_data_lengths 0 [] [] [] [] [] fixtureAsciiState
      (("1,,0\n2,,5\n3,,7").toList) []
      ⟨[1, 2, 3], [0, 1 / 1000, 1 / 500], [⟨fixtureAnalogConfig, [0, 5, 7]⟩], []⟩
      ⟨[], [], [], []⟩).2.2.1
      (by with_unfolding_all rfl) rfl rfl (by decide) (by decide)).1
  · exact ((channel_counts_and_data_lengths 0 [] [] [] [] []
      (fixtureBinaryState .Binary16) []
      [1, 0, 0, 0, 255, 255, 255, 255, 16, 0, 2, 0]
      ⟨[], [], [], []⟩
      ⟨[1], [0], [⟨fixtureAnalogConfig, [16]⟩], [⟨fixtureStatusConfig, [0]⟩]⟩).2.2.2
      (by with_unfolding_all rfl) rfl rfl (by decide) (by decide) (by decide)).1

end Comtrade
